import Mathlib

/-!
# Verification of the CarrotWuDev blog engine's markdown parsing and data layer

This file gives a shallow embedding, in Lean 4, of the pure core of the
blog engine: the utility functions of `js/core/utils.js` (`slugify`,
`parseField`, `parseLink`), the markdown parsers `Parser.parseConfig` and
`Parser.parseContent`, and the state transitions of the `DataService`
(content cache and pending-request map).  JavaScript strings are modeled as
`List Char` (sequences of Unicode code points); JavaScript's `null` /
`undefined` / missing object fields are modeled with `Option`; numbers that
can be `NaN` are modeled with dedicated sum types.  The regular expressions
that appear in the source are translated into explicit scanning functions
with the same matching behaviour (including the backtracking of the lazy
groups that occur there).  `String.prototype.localeCompare` is modeled as
code-point lexicographic comparison, and `toLowerCase` / the Unicode
character classes are modeled on explicitly listed code-point ranges; these
modeling choices are documented at the corresponding definitions.
-/

namespace CarrotBlog

/-- JavaScript strings are sequences of Unicode code points. -/
abbrev Str := List Char

/-- Model of the JavaScript whitespace class: the characters matched by the
regex class `\s` and removed by `String.prototype.trim` (ASCII whitespace,
NEL is excluded, NBSP, BOM, the Unicode space separators, and the line and
paragraph separators). -/
def isWs (c : Char) : Bool :=
  c = ' ' || c = '\t' || c = '\n' || c = '\r' ||
  c.toNat = 0x0B || c.toNat = 0x0C || c.toNat = 0xA0 || c.toNat = 0xFEFF ||
  (0x2000 ≤ c.toNat && c.toNat ≤ 0x200A) ||
  c.toNat = 0x2028 || c.toNat = 0x2029 || c.toNat = 0x202F ||
  c.toNat = 0x205F || c.toNat = 0x3000 || c.toNat = 0x1680

/-- `String.prototype.trim`: remove leading and trailing whitespace. -/
def jsTrim (s : Str) : Str :=
  ((s.dropWhile isWs).reverse.dropWhile isWs).reverse

/-- Does the list start with the given pattern of characters? -/
def startsWithL : Str → Str → Bool
  | _, [] => true
  | [], _ :: _ => false
  | c :: cs, d :: ds => c = d && startsWithL cs ds

/-- `md.split(/\r?\n/)`: split into lines at `\n`, also consuming a `\r`
that immediately precedes the `\n`.  A lone `\r` does not split. -/
def splitLines (s : Str) : List Str :=
  go [] [] s
where
  /-- `acc` collects finished lines (reversed), `cur` the current line
  (reversed). -/
  go (acc : List Str) (cur : Str) : Str → List Str
    | [] => (cur.reverse :: acc).reverse
    | '\r' :: '\n' :: rest => go (cur.reverse :: acc) [] rest
    | '\n' :: rest => go (cur.reverse :: acc) [] rest
    | c :: rest => go acc (c :: cur) rest

/-- `parseField` from `js/core/utils.js`: test the line against the regex
pattern `^fieldName\s*[:：]`; on a match, remove the matched part and return
the trimmed remainder (which may be empty), otherwise return `none`
(JavaScript `null`). -/
def parseField (line : Str) (fieldName : Str) : Option Str :=
  if startsWithL line fieldName then
    match (line.drop fieldName.length).dropWhile isWs with
    | ':' :: r => some (jsTrim r)
    | '：' :: r => some (jsTrim r)
    | _ => none
  else none

/-- `parseField` composed with the JavaScript truthiness test `if (x)` that
every caller performs: an empty field value (`""`, falsy) is identified with
`null`. -/
def parseFieldNE (line : Str) (fieldName : Str) : Option Str :=
  match parseField line fieldName with
  | some v => if v = [] then none else some v
  | none => none

/-- Backtracking scanner for the regexes of the form `\[(.*?)\]\((.*?)\)$` /
`\[(.*?)\]\((.+?)\)$` (applied to the characters after the opening `[`).
The lazy first group tries each `]` from the left; a candidate `]` must be
followed directly by `(`, and the remainder must consist of the second
group followed by a final `)` (the second group must be non-empty when
`plus` is `true`); if the remainder check fails the scanner backtracks and
the `]` is absorbed into the first group.  On success it returns the two
captured groups. -/
def bracketSplit (plus : Bool) : Str → Str → Option (Str × Str)
  | _, [] => none
  | acc, ']' :: rest =>
    match rest with
    | '(' :: rest2 =>
      if rest2.getLast? = some ')' && (!plus || decide (2 ≤ rest2.length)) then
        some (acc.reverse, rest2.dropLast)
      else bracketSplit plus (']' :: acc) rest
    | _ => bracketSplit plus (']' :: acc) rest
  | acc, c :: rest => bracketSplit plus (c :: acc) rest

/-- The cover-image regex `^!\[(.*?)\]\((.+?)\)$` of `Parser.parseContent`;
returns the captured URL group `m[2]`. -/
def mdImageUrl (s : Str) : Option Str :=
  match s with
  | '!' :: '[' :: rest => (bracketSplit true [] rest).map (fun p => p.2)
  | _ => none

/-- The avatar regex `^!\[.*?\]\((.*?)\)$` of `Parser.parseConfig`; returns
the captured URL group `m[1]` (the part between `![ ]` is not captured). -/
def mdImageUrlZ (s : Str) : Option Str :=
  match s with
  | '!' :: '[' :: rest => (bracketSplit false [] rest).map (fun p => p.2)
  | _ => none

/-- The link regex `^\[(.*?)\]\((.*?)\)$` used by `parseLink` and for the
`Github` field of `Parser.parseConfig`; returns the two captured groups. -/
def bracketLink (s : Str) : Option (Str × Str) :=
  match s with
  | '[' :: rest => bracketSplit false [] rest
  | _ => none

/-- Helper for the unanchored regex `\((.*?)\)$`: first `(` of the list,
returning what follows it. -/
def afterFirstParen : Str → Option Str
  | [] => none
  | '(' :: rest => some rest
  | _ :: rest => afterFirstParen rest

/-- The regex `\((.*?)\)$` (used for category paths and `照片链接` values):
matches when the string ends in `)` and an earlier `(` exists; the captured
group is everything between the first `(` and the final `)`. -/
def parenTail (s : Str) : Option Str :=
  if s.getLast? = some ')' then afterFirstParen s.dropLast else none

/-- Characters strictly before the first `>` of the list (`none` when there
is no `>`). -/
def beforeGt : Str → Option Str
  | [] => none
  | '>' :: _ => some []
  | c :: cs => (beforeGt cs).map (fun l => c :: l)

/-- The email regex `<(.+?)>` (unanchored search): for each `<` from the
left, the lazy group takes at least one character and ends at the next `>`;
if no `>` follows, the scanner moves on to the next `<`. -/
def angleScan : Str → Option Str
  | [] => none
  | '<' :: rest =>
    (match rest with
     | [] => none
     | c :: cs =>
       match beforeGt cs with
       | some l => some (c :: l)
       | none => angleScan rest)
  | _ :: rest => angleScan rest

/-- Try to match `https?:\/\/\S+` at the start of the list; returns the
whole matched text. -/
def matchHttpAt (s : Str) : Option Str :=
  match s with
  | 'h' :: 't' :: 't' :: 'p' :: rest =>
    match rest with
    | 's' :: ':' :: '/' :: '/' :: c :: cs =>
      if isWs c then none
      else some ("https://".toList ++ c :: cs.takeWhile (fun d => !isWs d))
    | ':' :: '/' :: '/' :: c :: cs =>
      if isWs c then none
      else some ("http://".toList ++ c :: cs.takeWhile (fun d => !isWs d))
    | _ => none
  | _ => none

/-- The regex search `rest.match(/https?:\/\/\S+/)`: leftmost match. -/
def findHttpUrl : Str → Option Str
  | [] => none
  | c :: rest =>
    match matchHttpAt (c :: rest) with
    | some u => some u
    | none => findHttpUrl rest

/-- Model of the Unicode property `\p{L}` (with the `u` flag) restricted to
explicitly listed ranges on which this development models the Default Case
Conversion exactly: ASCII letters; the Latin-1 letters (excluding `×` and
`÷`); the Greek capitals `Α`–`Ρ`, `Σ`–`Ϋ` and minuscules `ά`–`ώ`; the
Cyrillic block `Ѐ`–`џ`; hiragana, katakana, CJK unified ideographs and
hangul syllables (all caseless); and the mathematical bold/italic letters
U+1D400–U+1D454, which are cased letters *without* any case mapping (so
`toLowerCase` leaves their capitals, e.g. `𝐀`, unchanged).  The source
relies on the full Unicode property; on characters outside these ranges
the model deviates by stripping them. -/
def isUnicodeLetter (c : Char) : Bool :=
  c.isAlpha ||
  (0xC0 ≤ c.toNat && c.toNat ≤ 0xFF && c.toNat ≠ 0xD7 && c.toNat ≠ 0xF7) ||
  (0x0391 ≤ c.toNat && c.toNat ≤ 0x03A1) ||
  (0x03A3 ≤ c.toNat && c.toNat ≤ 0x03AB) ||
  (0x03AC ≤ c.toNat && c.toNat ≤ 0x03CE) ||
  (0x0400 ≤ c.toNat && c.toNat ≤ 0x045F) ||
  (0x3041 ≤ c.toNat && c.toNat ≤ 0x3096) ||
  (0x309D ≤ c.toNat && c.toNat ≤ 0x309F) ||
  (0x30A1 ≤ c.toNat && c.toNat ≤ 0x30FA) ||
  (0x30FC ≤ c.toNat && c.toNat ≤ 0x30FF) ||
  (0x4E00 ≤ c.toNat && c.toNat ≤ 0x9FFF) ||
  (0xAC00 ≤ c.toNat && c.toNat ≤ 0xD7A3) ||
  (0x1D400 ≤ c.toNat && c.toNat ≤ 0x1D454)

/-- Model of the Unicode property `\p{N}`: ASCII digits, Arabic-Indic
digits and fullwidth digits. -/
def isUnicodeDigit (c : Char) : Bool :=
  c.isDigit ||
  (0x0660 ≤ c.toNat && c.toNat ≤ 0x0669) ||
  (0xFF10 ≤ c.toNat && c.toNat ≤ 0xFF19)

/-- Model of the Unicode lowercase-letter property (category `Ll`) on the
ranges of this development: ASCII `a`–`z`, Latin-1 `ß`–`ÿ` (excluding
`÷`), Greek `ά`–`ώ`, Cyrillic `а`–`џ`, and the mathematical bold
minuscules `𝐚`–`𝐳`.  The capitals of these scripts — including the
mathematical bold capitals U+1D400–U+1D419, which have no lowercase
mapping — are not lowercase letters. -/
def isLowercaseLetter (c : Char) : Bool :=
  (0x61 ≤ c.toNat && c.toNat ≤ 0x7A) ||
  (0xDF ≤ c.toNat && c.toNat ≤ 0xFF && c.toNat ≠ 0xF7) ||
  (0x03AC ≤ c.toNat && c.toNat ≤ 0x03CE) ||
  (0x0430 ≤ c.toNat && c.toNat ≤ 0x045F) ||
  (0x1D41A ≤ c.toNat && c.toNat ≤ 0x1D433)

/-- Model of `String.prototype.toLowerCase` (Unicode Default Case
Conversion) on the ranges of `isUnicodeLetter`: ASCII `A`–`Z`, Latin-1
`À`–`Þ` (excluding `×`), Greek `Α`–`Ρ` and `Σ`–`Ϋ`, and Cyrillic `А`–`Я`
map down by 32 code points, `Ѐ`–`Џ` maps down by 80; every other modeled
character (minuscules, caseless scripts, and the mathematical bold letters,
which have no case mappings) is fixed.  The context-sensitive final-sigma
rule (`Σ` at word end becoming `ς`) is not modeled; `Σ` always becomes
`σ`, itself a lowercase letter. -/
def jsToLower (c : Char) : Char :=
  if 65 ≤ c.toNat ∧ c.toNat ≤ 90 then Char.ofNat (c.toNat + 32)
  else if 0xC0 ≤ c.toNat ∧ c.toNat ≤ 0xDE ∧ c.toNat ≠ 0xD7 then Char.ofNat (c.toNat + 32)
  else if 0x391 ≤ c.toNat ∧ c.toNat ≤ 0x3A1 then Char.ofNat (c.toNat + 32)
  else if 0x3A3 ≤ c.toNat ∧ c.toNat ≤ 0x3AB then Char.ofNat (c.toNat + 32)
  else if 0x410 ≤ c.toNat ∧ c.toNat ≤ 0x42F then Char.ofNat (c.toNat + 32)
  else if 0x400 ≤ c.toNat ∧ c.toNat ≤ 0x40F then Char.ofNat (c.toNat + 80)
  else c

/-- The character class kept by `slugify`'s strip step
`replace(/[^\p{L}\p{N}\s\-_.]/gu, '')`. -/
def keepSlugChar (c : Char) : Bool :=
  isUnicodeLetter c || isUnicodeDigit c || isWs c || c = '-' || c = '_' || c = '.'

/-- Replace each maximal run of characters satisfying `p` by a single
hyphen; the flag records whether the previous character was inside such a
run (so that only the first character of a run emits the hyphen). -/
def runToHyphen (p : Char → Bool) : Bool → Str → Str
  | _, [] => []
  | inRun, c :: cs =>
    if p c then
      if inRun then runToHyphen p true cs
      else '-' :: runToHyphen p true cs
    else c :: runToHyphen p false cs

/-- `replace(/\s+/g, '-')`: each maximal run of whitespace becomes a single
hyphen. -/
def wsToHyphen (s : Str) : Str :=
  runToHyphen isWs false s

/-- The global replace of the regex `[-]+` by `'-'`: each maximal run of
hyphens becomes a single hyphen. -/
def collapseHyphens (s : Str) : Str :=
  runToHyphen (fun d => d = '-') false s

/-- `slugify` from `js/core/utils.js`: trim, lowercase, strip everything
outside `[\p{L}\p{N}\s\-_.]`, turn whitespace runs into hyphens, collapse
hyphen runs. -/
def slugify (s : Str) : Str :=
  collapseHyphens (wsToHyphen (((jsTrim s).map jsToLower).filter keepSlugChar))

/-- `parseLink` from `js/core/utils.js`: strip a leading `链接\s*[:：]\s*`
and trim; then try `[text](url)`, then a bare `http(s)://` URL (link text
`访问`), and otherwise fall back to the remaining text (or `访问`) with URL
`#`. -/
def parseLink (line : Str) : Str × Str :=
  let rest :=
    match parseField line "链接".toList with
    | some v => v
    | none => jsTrim line
  match bracketLink rest with
  | some (text, url) => (jsTrim text, jsTrim url)
  | none =>
    match findHttpUrl rest with
    | some u => ("访问".toList, u)
    | none => (if rest = [] then "访问".toList else rest, ['#'])

/-- `parseInt(s, 10)`: skip leading whitespace, optional sign, then a
non-empty run of ASCII digits; `none` models `NaN`. -/
def digitsVal (s : Str) : Option Nat :=
  let ds := s.takeWhile Char.isDigit
  if ds = [] then none
  else some (ds.foldl (fun a c => a * 10 + (c.toNat - 48)) 0)

/-- `parseInt(·, 10)` (returns `none` for `NaN`). -/
def jsParseInt (s : Str) : Option Int :=
  match s.dropWhile isWs with
  | '-' :: r => (digitsVal r).map (fun n => -(n : Int))
  | '+' :: r => (digitsVal r).map (fun n => (n : Int))
  | r => (digitsVal r).map (fun n => (n : Int))

/-- The value space of JavaScript `parseFloat`: a finite value (modeled
exactly as a decimal `fin m e`, denoting `m * 10 ^ e`; the double-precision
rounding of the source is not modeled), an infinity, or `NaN`. -/
inductive JsFloat where
  | negInf
  | fin (m : Int) (e : Int)
  | posInf
  | nan
deriving DecidableEq

/-- `10 ^ k` on integers, written to reduce structurally. -/
def tenPow : Nat → Int
  | 0 => 1
  | k + 1 => 10 * tenPow k

/-- Value comparison `m1 * 10 ^ e1 < m2 * 10 ^ e2` after clearing the
smaller exponent. -/
def finLtB (m1 e1 m2 e2 : Int) : Bool :=
  if e2 ≤ e1 then m1 * tenPow (e1 - e2).toNat < m2
  else m1 < m2 * tenPow (e2 - e1).toNat

/-- Value equality `m1 * 10 ^ e1 = m2 * 10 ^ e2` after clearing the
smaller exponent. -/
def finEqB (m1 e1 m2 e2 : Int) : Bool :=
  if e2 ≤ e1 then m1 * tenPow (e1 - e2).toNat = m2
  else m1 = m2 * tenPow (e2 - e1).toNat

/-- Numeric value of a digit run (most significant first). -/
def natVal (ds : Str) : Nat :=
  ds.foldl (fun a c => a * 10 + (c.toNat - 48)) 0

/-- Exponent part of a float literal: `e`/`E`, optional sign, digits; `0`
when absent or malformed (in which case `parseFloat` stops before it). -/
def expPart (s : Str) : Int :=
  match s with
  | 'e' :: r => expDigits r
  | 'E' :: r => expDigits r
  | _ => 0
where
  expDigits (r : Str) : Int :=
    match r with
    | '-' :: rr =>
      let ds := rr.takeWhile Char.isDigit
      if ds = [] then 0 else -(natVal ds : Int)
    | '+' :: rr =>
      let ds := rr.takeWhile Char.isDigit
      if ds = [] then 0 else (natVal ds : Int)
    | rr =>
      let ds := rr.takeWhile Char.isDigit
      if ds = [] then 0 else (natVal ds : Int)

/-- Magnitude part of `parseFloat` after the optional sign: `Infinity`, or
`digits [. digits] [exponent]` with at least one digit overall. -/
def parseFloatMag (r : Str) (neg : Bool) : JsFloat :=
  if startsWithL r "Infinity".toList then
    (if neg then JsFloat.negInf else JsFloat.posInf)
  else
    let intDs := r.takeWhile Char.isDigit
    let r1 := r.drop intDs.length
    let fracDs :=
      match r1 with
      | '.' :: rr => rr.takeWhile Char.isDigit
      | _ => []
    let r2 :=
      match r1 with
      | '.' :: rr => rr.drop fracDs.length
      | _ => r1
    if intDs = [] ∧ fracDs = [] then JsFloat.nan
    else
      let m : Int := (natVal (intDs ++ fracDs) : Int)
      JsFloat.fin (if neg then -m else m) (expPart r2 - (fracDs.length : Int))

/-- `parseFloat`: skip leading whitespace, optional sign, then the
magnitude. -/
def jsParseFloat (s : Str) : JsFloat :=
  match s.dropWhile isWs with
  | '-' :: r => parseFloatMag r true
  | '+' :: r => parseFloatMag r false
  | r => parseFloatMag r false

/-- `isNaN` on a `parseFloat` result. -/
def JsFloat.isNaN : JsFloat → Bool
  | .nan => true
  | _ => false

/-- The strict comparison `<` on `parseFloat` results (`false` whenever
`NaN` is involved, as in JavaScript). -/
def JsFloat.lt : JsFloat → JsFloat → Bool
  | .negInf, .fin _ _ => true
  | .negInf, .posInf => true
  | .fin m1 e1, .fin m2 e2 => finLtB m1 e1 m2 e2
  | .fin _ _, .posInf => true
  | _, _ => false

/-- Strict equality `===` of two non-`NaN` `parseFloat` results: equality
of the denoted values. -/
def JsFloat.feq : JsFloat → JsFloat → Bool
  | .negInf, .negInf => true
  | .posInf, .posInf => true
  | .fin m1 e1, .fin m2 e2 => finEqB m1 e1 m2 e2
  | _, _ => false

/-- The strict inequality `!==` on `parseFloat` results (`NaN !== NaN` is
`true`). -/
def JsFloat.strictNe (x y : JsFloat) : Bool :=
  x.isNaN || y.isNaN || !(x.feq y)

/-- Model of `String.prototype.localeCompare`: code-point lexicographic
comparison (a locale-independent approximation of the collation used by the
source). -/
def lexCmp : Str → Str → Int
  | [], [] => 0
  | [], _ :: _ => -1
  | _ :: _, [] => 1
  | a :: as, b :: bs =>
    if a.toNat < b.toNat then -1
    else if b.toNat < a.toNat then 1
    else lexCmp as bs

/-- The body of `sortFn` in `Parser.parseContent`, acting on the two order
tokens after the `|| '999'` defaulting: numeric ascending when both sides
parse as floats and differ strictly, otherwise `localeCompare`.  The source
returns the float `nA - nB`; only its sign is observable to `Array.sort`
and to the claims, so the numeric branch returns `±1`. -/
def orderCmp (oA oB : Str) : Int :=
  let nA := jsParseFloat oA
  let nB := jsParseFloat oB
  if !nA.isNaN && !nB.isNaN && nA.strictNe nB then
    (if nA.lt nB then -1 else 1)
  else lexCmp oA oB

/-- The defaulting `a.order || '999'` applied to an optional order token
(a missing or empty token is falsy). -/
def jsOrDefault (o : Option Str) : Str :=
  match o with
  | some s => if s = [] then "999".toList else s
  | none => "999".toList

/-- One step of stable insertion: the new element `x` (arriving later in
the input) is placed before the first element `y` with `cmp x y < 0`, i.e.
after every element it does not strictly precede. -/
def insertCmp (cmp : α → α → Int) (x : α) : List α → List α
  | [] => [x]
  | y :: ys => if cmp x y < 0 then x :: y :: ys else y :: insertCmp cmp x ys

/-- Model of the stable `Array.prototype.sort(cmp)`: left-to-right stable
insertion sort.  For a consistent comparator this is the unique stable
result required by the ECMAScript specification. -/
def jsSort (cmp : α → α → Int) (l : List α) : List α :=
  l.foldl (fun acc x => insertCmp cmp x acc) []

/-! ## The data model of `Parser.parseContent` -/

/-- The bag of writable fields of a content item or of a gallery sub-item
(`target` in the source): every field line writes into such a bag.  A
missing JavaScript object property is `none`. -/
structure SubItem where
  title : Str
  order : Option Str := none
  desc : Option Str := none
  tech : Option Str := none
  status : Option Str := none
  tags : Option Str := none
  dev : Option Str := none
  platform : Option Str := none
  releaseDate : Option Str := none
  review : Option Str := none
  author : Option Str := none
  publishYear : Option Str := none
  photoLocation : Option Str := none
  photoDate : Option Str := none
  cover : Option Str := none
  photoUrl : Option Str := none
  linkText : Option Str := none
  linkUrl : Option Str := none
deriving DecidableEq, Repr

/-- A top-level content item (`currentItem` in the source): its field bag,
the `isSet` flag (absent ↦ `false`), the `photos` array (`none` models an
absent property; `##` items are created with `photos: []`, i.e. `some []`),
and `hasSub`, which models the presence of the `currentSubItem` property.
In the source `currentSubItem` aliases the most recently pushed element of
`photos`; writes through it are modeled by updating the last element of
`photos`. -/
structure ContentItem where
  fields : SubItem
  isSet : Bool := false
  photos : Option (List SubItem) := none
  hasSub : Bool := false
deriving DecidableEq, Repr

/-- The `##` heading test `/^##\s+/` (on the trimmed line). -/
def isH2 (t : Str) : Bool :=
  match t with
  | '#' :: '#' :: c :: _ => isWs c
  | _ => false

/-- The `###` heading test `/^###\s+/` (on the trimmed line). -/
def isH3 (t : Str) : Bool :=
  match t with
  | '#' :: '#' :: '#' :: c :: _ => isWs c
  | _ => false

/-- `trimmed.replace(/^##\s+/, '').trim()`. -/
def h2Title (t : Str) : Str :=
  jsTrim ((t.drop 2).dropWhile isWs)

/-- `trimmed.replace(/^###\s+/, '').trim()`. -/
def h3Title (t : Str) : Str :=
  jsTrim ((t.drop 3).dropWhile isWs)

/-- Replace the last element of the list (used to model writes through the
`currentSubItem` alias; the list is never empty when this is reached). -/
def setLast (t : SubItem) : List SubItem → List SubItem
  | [] => []
  | [_] => [t]
  | x :: xs => x :: setLast t xs

/-- The write target of a field line: the current sub-item (the last
element of `photos`) when `currentItem.isSet && currentItem.currentSubItem`
holds, otherwise the item itself. -/
def readTarget (it : ContentItem) : SubItem :=
  if it.isSet && it.hasSub then
    match it.photos with
    | some l => (l.getLast?).getD it.fields
    | none => it.fields
  else it.fields

/-- Store an updated field bag back into the write target. -/
def writeTarget (it : ContentItem) (t : SubItem) : ContentItem :=
  if it.isSet && it.hasSub then
    { it with photos := it.photos.map (setLast t) }
  else { it with fields := t }

/-- The `https://covers.openlibrary.org/b/isbn/<isbn>-L.jpg` template. -/
def openLibraryUrl (isbn : Str) : Str :=
  "https://covers.openlibrary.org/b/isbn/".toList ++ isbn ++ "-L.jpg".toList

/-- The `https://cdn.akamai.steamstatic.com/steam/apps/<id>/header.jpg`
template. -/
def steamUrl (steamId : Str) : Str :=
  "https://cdn.akamai.steamstatic.com/steam/apps/".toList ++ steamId ++ "/header.jpg".toList

/-- Field-name constants of `Parser.parseContent` (kept abstract so that
proofs can refer to each name uniformly). -/
def fOrder1 : Str := "展示序号".toList
def fOrder2 : Str := "序号".toList
def fQuantity : Str := "数量".toList
def fDesc : Str := "描述".toList
def fTech : Str := "技术栈".toList
def fStatus : Str := "状态".toList
def fGameType : Str := "游戏类型".toList
def fTags : Str := "标签".toList
def fDev1 : Str := "开发商".toList
def fDev2 : Str := "厂商".toList
def fPlatform1 : Str := "发售平台".toList
def fPlatform2 : Str := "平台".toList
def fRelDate1 : Str := "发售日期".toList
def fRelDate2 : Str := "日期".toList
def fReview : Str := "评价".toList
def fAuthor : Str := "作者".toList
def fPubYear1 : Str := "出版年份".toList
def fPubYear2 : Str := "出版时间".toList
def fBookType : Str := "书籍类型".toList
def fPhotoLoc : Str := "拍摄地点".toList
def fPhotoDate : Str := "拍摄日期".toList
def fCover1 : Str := "封面".toList
def fCover2 : Str := "Cover".toList
def fISBN : Str := "ISBN".toList
def fSteam1 : Str := "SteamID".toList
def fSteam2 : Str := "SteamAppID".toList
def fPhotoUrl : Str := "照片链接".toList
def fLink : Str := "链接".toList

/-- The JavaScript idiom `parseField(line, n1) || parseField(line, n2)`
under the truthiness test of the caller. -/
def parseField2NE (line : Str) (n1 n2 : Str) : Option Str :=
  match parseFieldNE line n1 with
  | some v => some v
  | none => parseFieldNE line n2

/-- The `封面` / `Cover` branch: on a non-empty raw value, set the cover
to the trimmed URL when the value matches the strict markdown-image format
with a non-empty URL; afterwards `continue` exactly when `target.cover` is
set, otherwise fall through to the ISBN / Steam rules. -/
def coverStep (trimmed : Str) (t : SubItem) : Option SubItem :=
  match parseField2NE trimmed fCover1 fCover2 with
  | none => none
  | some raw =>
    let t' :=
      match mdImageUrl raw with
      | some u => if jsTrim u = [] then t else { t with cover := some (jsTrim u) }
      | none => t
    if t'.cover.isSome then some t' else none

/-- The `ISBN` branch: derive an Open Library cover only when no cover is
set yet (`isbn && !target.cover`). -/
def isbnStep (trimmed : Str) (t : SubItem) : Option SubItem :=
  match parseFieldNE trimmed fISBN with
  | some isbn => if t.cover.isNone then some { t with cover := some (openLibraryUrl isbn) } else none
  | none => none

/-- The `SteamID` / `SteamAppID` branch: derive a Steam CDN cover only when
no cover is set yet. -/
def steamStep (trimmed : Str) (t : SubItem) : Option SubItem :=
  match parseField2NE trimmed fSteam1 fSteam2 with
  | some sid => if t.cover.isNone then some { t with cover := some (steamUrl sid) } else none
  | none => none

/-- The `照片链接` branch: take the parenthesised tail when present, strip a
leading `../`, store as `photoUrl`. -/
def photoUrlStep (trimmed : Str) (t : SubItem) : Option SubItem :=
  match parseFieldNE trimmed fPhotoUrl with
  | some raw =>
    let url := (parenTail raw).getD raw
    let url := if startsWithL url "../".toList then url.drop 3 else url
    some { t with photoUrl := some url }
  | none => none

/-- The final link branch: any line matching `^链接\s*[:：]` (even with an
empty value) stores `parseLink`'s text and URL. -/
def linkStep (trimmed : Str) (t : SubItem) : Option SubItem :=
  if (parseField trimmed fLink).isSome then
    let l := parseLink trimmed
    some { t with linkText := some l.1, linkUrl := some l.2 }
  else none

/-- The cascade of field branches of `Parser.parseContent` after the order
and `数量` branches, in source order; `some` exactly when a branch fires
and `continue`s. -/
def restFields (trimmed : Str) (t : SubItem) : Option SubItem :=
  match parseFieldNE trimmed fDesc with
  | some v => some { t with desc := some v }
  | none =>
  match parseFieldNE trimmed fTech with
  | some v => some { t with tech := some v }
  | none =>
  match parseFieldNE trimmed fStatus with
  | some v => some { t with status := some v }
  | none =>
  match parseField2NE trimmed fGameType fTags with
  | some v => some { t with tags := some v }
  | none =>
  match parseField2NE trimmed fDev1 fDev2 with
  | some v => some { t with dev := some v }
  | none =>
  match parseField2NE trimmed fPlatform1 fPlatform2 with
  | some v => some { t with platform := some v }
  | none =>
  match parseField2NE trimmed fRelDate1 fRelDate2 with
  | some v => some { t with releaseDate := some v }
  | none =>
  match parseFieldNE trimmed fReview with
  | some v => some { t with review := some v }
  | none =>
  match parseFieldNE trimmed fAuthor with
  | some v => some { t with author := some v }
  | none =>
  match parseField2NE trimmed fPubYear1 fPubYear2 with
  | some v => some { t with publishYear := some v }
  | none =>
  match parseFieldNE trimmed fBookType with
  | some v => some { t with tags := some v }
  | none =>
  match parseFieldNE trimmed fPhotoLoc with
  | some v => some { t with photoLocation := some v }
  | none =>
  match parseFieldNE trimmed fPhotoDate with
  | some v => some { t with photoDate := some v }
  | none =>
  match coverStep trimmed t with
  | some t' => some t'
  | none =>
  match isbnStep trimmed t with
  | some t' => some t'
  | none =>
  match steamStep trimmed t with
  | some t' => some t'
  | none =>
  match photoUrlStep trimmed t with
  | some t' => some t'
  | none => linkStep trimmed t

/-- Does the order branch fire (`展示序号` with `序号` as fallback)? -/
def orderMatches (trimmed : Str) : Bool :=
  (parseField2NE trimmed fOrder1 fOrder2).isSome

/-- The effect of one field line on a write target: the order branch first,
then the remaining cascade; a line firing no branch leaves the target
unchanged. -/
def subLineStep (t : SubItem) (trimmed : Str) : SubItem :=
  match parseField2NE trimmed fOrder1 fOrder2 with
  | some v => { t with order := some v }
  | none => (restFields trimmed t).getD t

/-- Does the `数量` branch fire with `continue` (a quantity above 1 marks
the item as a gallery; otherwise the branch falls through with no
effect)? -/
def quantityTriggers (trimmed : Str) : Bool :=
  match parseFieldNE trimmed fQuantity with
  | some v =>
    match jsParseInt v with
    | some n => decide (1 < n)
    | none => false
  | none => false

/-- The effect of one non-heading line on the current item: order lines and
the general cascade act on the write target; a triggering `数量` line sets
`isSet` on the item itself. -/
def contentLineStep (it : ContentItem) (trimmed : Str) : ContentItem :=
  if orderMatches trimmed then
    writeTarget it (subLineStep (readTarget it) trimmed)
  else if quantityTriggers trimmed then
    { it with isSet := true }
  else
    writeTarget it (subLineStep (readTarget it) trimmed)

/-- The running state of the `parseContent` loop: the items pushed so far
and the open item. -/
structure ParseState where
  items : List ContentItem
  cur : Option ContentItem
deriving DecidableEq, Repr

/-- `pushItem`: append the open item when it exists and its title is
truthy (non-empty); in all cases `currentItem` becomes `null`. -/
def pushItem (st : ParseState) : ParseState :=
  match st.cur with
  | some it =>
    if it.fields.title ≠ [] then { items := st.items ++ [it], cur := none }
    else { items := st.items, cur := none }
  | none => { items := st.items, cur := none }

/-- A fresh `##` item: `title` plus `photos: []`. -/
def newContentItem (title : Str) : ContentItem :=
  { fields := { title := title }, isSet := false, photos := some [], hasSub := false }

/-- The `###` branch on an open item: mark it as a gallery, create the
sub-item, push it onto `photos` and make it the write target. -/
def addSub (it : ContentItem) (title : Str) : ContentItem :=
  { it with
    isSet := true
    hasSub := true
    photos := some ((it.photos.getD []) ++ [{ title := title }]) }

/-- One iteration of the `parseContent` line loop. -/
def contentStep (st : ParseState) (line : Str) : ParseState :=
  let trimmed := jsTrim line
  if isH2 trimmed then
    let st' := pushItem st
    { st' with cur := some (newContentItem (h2Title trimmed)) }
  else if isH3 trimmed then
    match st.cur with
    | some it => { st with cur := some (addSub it (h3Title trimmed)) }
    | none => st
  else
    match st.cur with
    | none => st
    | some it => { st with cur := some (contentLineStep it trimmed) }

/-- `sortFn` applied to two items. -/
def itemCmp (a b : ContentItem) : Int :=
  orderCmp (jsOrDefault a.fields.order) (jsOrDefault b.fields.order)

/-- `sortFn` applied to two gallery sub-items. -/
def subCmp (a b : SubItem) : Int :=
  orderCmp (jsOrDefault a.order) (jsOrDefault b.order)

/-- The final pass `if (item.isSet && item.photos) item.photos.sort(sortFn)`
(an array is always truthy, so the second conjunct only excludes an absent
`photos` property). -/
def sortPhotos (it : ContentItem) : ContentItem :=
  if it.isSet && it.photos.isSome then
    { it with photos := it.photos.map (fun l => jsSort subCmp l) }
  else it

/-- `Parser.parseContent` on a sequence of code points: run the line loop,
push the last open item, sort the items, then sort each gallery's
photos. -/
def parseContentL (md : Str) : List ContentItem :=
  let st := (splitLines md).foldl contentStep { items := [], cur := none }
  let st := pushItem st
  (jsSort itemCmp st.items).map sortPhotos

/-- `Parser.parseContent`. -/
def parseContent (md : String) : List ContentItem :=
  parseContentL md.toList

/-! ## The data model of `Parser.parseConfig` -/

/-- A stored `parseInt` result (`nan` models `NaN`). -/
inductive JsIntVal where
  | num (n : Int)
  | nan
deriving DecidableEq, Repr

/-- `parseInt(v, 10)` as stored in a category's `order` property. -/
def jsIntValOf (v : Str) : JsIntVal :=
  match jsParseInt v with
  | some n => JsIntVal.num n
  | none => JsIntVal.nan

/-- A category record of the configuration file. -/
structure CategoryMeta where
  title : Str
  id : Str
  type : Str
  order : Option JsIntVal := none
  color : Option Str := none
  path : Option Str := none
deriving DecidableEq, Repr

/-- The `博客信息` block of the configuration. -/
structure BlogInfo where
  title : Option Str := none
  desc : Option Str := none
  slogan : Option Str := none
  copyright : Option Str := none
deriving DecidableEq, Repr

/-- The `作者信息` block of the configuration. -/
structure AuthorInfo where
  name : Option Str := none
  avatar : Option Str := none
  email : Option Str := none
  github : Option Str := none
  tags : Option (List Str) := none
deriving DecidableEq, Repr

/-- The result of `Parser.parseConfig`. -/
structure SiteConfig where
  blogInfo : BlogInfo
  authorInfo : AuthorInfo
  categories : List CategoryMeta
deriving DecidableEq, Repr

/-- The three sections of the configuration file. -/
inductive CfgSection where
  | blog
  | author
  | categories
deriving DecidableEq, Repr

/-- The running state of the `parseConfig` loop.  `currentCategory` always
aliases the last element of `categories` once set, so it is modeled by the
flag `hasCurCat` plus updates to that last element. -/
structure CfgState where
  blogInfo : BlogInfo
  authorInfo : AuthorInfo
  categories : List CategoryMeta
  currentSection : Option CfgSection := none
  hasCurCat : Bool := false
deriving DecidableEq, Repr

/-- A section-header test `/^##\s+<name>/`. -/
def isSectionHeader (t : Str) (name : Str) : Bool :=
  match t with
  | '#' :: '#' :: c :: rest => isWs c && startsWithL ((c :: rest).dropWhile isWs) name
  | _ => false

/-- The `博客信息` field lines (all four tests run on every line; at most
one fires because the field names are not prefixes of one another). -/
def blogLine (b : BlogInfo) (t : Str) : BlogInfo :=
  let b := match parseFieldNE t "博客名称".toList with
    | some v => { b with title := some v }
    | none => b
  let b := match parseFieldNE t "网站描述".toList with
    | some v => { b with desc := some v }
    | none => b
  let b := match parseFieldNE t "标语".toList with
    | some v => { b with slogan := some v }
    | none => b
  match parseFieldNE t "版权".toList with
  | some v => { b with copyright := some v }
  | none => b

/-- `tags.split(/[、,，]/)`: split at any of the three separators. -/
def splitTags (s : Str) : List Str :=
  go [] [] s
where
  go (acc : List Str) (cur : Str) : Str → List Str
    | [] => (cur.reverse :: acc).reverse
    | c :: rest =>
      if c = '、' || c = ',' || c = '，' then go (cur.reverse :: acc) [] rest
      else go acc (c :: cur) rest

/-- The `作者信息` field lines: name; avatar (markdown image unwrapped, a
leading `../` stripped); email (`<...>` unwrapped); github (link URL
extracted); tags (split and trimmed). -/
def authorLine (a : AuthorInfo) (t : Str) : AuthorInfo :=
  let a := match parseFieldNE t "姓名".toList with
    | some v => { a with name := some v }
    | none => a
  let a := match parseFieldNE t "头像".toList with
    | some v =>
      let url := (mdImageUrlZ v).getD v
      let url := if startsWithL url "../".toList then url.drop 3 else url
      { a with avatar := some url }
    | none => a
  let a := match parseFieldNE t "Email".toList with
    | some v => { a with email := some ((angleScan v).getD v) }
    | none => a
  let a := match parseFieldNE t "Github".toList with
    | some v => { a with github := some (((bracketLink v).map (fun p => p.2)).getD v) }
    | none => a
  match parseFieldNE t fTags with
  | some v => { a with tags := some ((splitTags v).map jsTrim) }
  | none => a

/-- Update the last category in place (the `currentCategory` alias). -/
def updateLastCat (f : CategoryMeta → CategoryMeta) : List CategoryMeta → List CategoryMeta
  | [] => []
  | [c] => [f c]
  | c :: cs => c :: updateLastCat f cs

/-- The field lines of an open category: `样式类型`, `展示序号` (stored as a
`parseInt` result), `强调色`, and a `链接：` line whose parenthesised tail
(with a leading `../` stripped) becomes the category path. -/
def categoryLine (c : CategoryMeta) (t : Str) : CategoryMeta :=
  let c := match parseFieldNE t "样式类型".toList with
    | some v => { c with type := v }
    | none => c
  let c := match parseFieldNE t fOrder1 with
    | some v => { c with order := some (jsIntValOf v) }
    | none => c
  let c := match parseFieldNE t "强调色".toList with
    | some v => { c with color := some v }
    | none => c
  if startsWithL t "链接：".toList then
    match parenTail t with
    | some p =>
      let p := if startsWithL p "../".toList then p.drop 3 else p
      { c with path := some p }
    | none => c
  else c

/-- The `展示类别` block: a `###` heading opens a category (title, slug id,
type `'default'`); other lines update the open category, if any. -/
def categoriesLine (st : CfgState) (t : Str) : CfgState :=
  if isH3 t then
    let title := h3Title t
    { st with
      categories := st.categories ++
        [{ title := title, id := slugify title, type := "default".toList }]
      hasCurCat := true }
  else if st.hasCurCat then
    { st with categories := updateLastCat (fun c => categoryLine c t) st.categories }
  else st

/-- One iteration of the `parseConfig` line loop: skip blank lines, switch
sections on the three `##` headers, otherwise dispatch on the current
section. -/
def configStep (st : CfgState) (line : Str) : CfgState :=
  let trimmed := jsTrim line
  if trimmed = [] then st
  else if isSectionHeader trimmed "博客信息".toList then
    { st with currentSection := some CfgSection.blog }
  else if isSectionHeader trimmed "作者信息".toList then
    { st with currentSection := some CfgSection.author }
  else if isSectionHeader trimmed "展示类别".toList then
    { st with currentSection := some CfgSection.categories }
  else
    match st.currentSection with
    | some CfgSection.blog => { st with blogInfo := blogLine st.blogInfo trimmed }
    | some CfgSection.author => { st with authorInfo := authorLine st.authorInfo trimmed }
    | some CfgSection.categories => categoriesLine st trimmed
    | none => st

/-- The effective sort key `(a.order || 99)` of the final category sort:
an absent order, a `NaN` order and an order of `0` are all falsy and yield
`99`. -/
def effOrder (c : CategoryMeta) : Int :=
  match c.order with
  | some (JsIntVal.num n) => if n = 0 then 99 else n
  | some JsIntVal.nan => 99
  | none => 99

/-- The category comparator `(a.order || 99) - (b.order || 99)`. -/
def catCmp (a b : CategoryMeta) : Int :=
  effOrder a - effOrder b

/-- `Parser.parseConfig` before the final sort. -/
def parseConfigRawL (md : Str) : CfgState :=
  (splitLines md).foldl configStep
    { blogInfo := {}, authorInfo := {}, categories := [] }

/-- `Parser.parseConfig` on a sequence of code points. -/
def parseConfigL (md : Str) : SiteConfig :=
  let st := parseConfigRawL md
  { blogInfo := st.blogInfo
    authorInfo := st.authorInfo
    categories := jsSort catCmp st.categories }

/-- `Parser.parseConfig`. -/
def parseConfig (md : String) : SiteConfig :=
  parseConfigL md.toList

/-! ## The data service

`DataService` keeps two maps keyed by category id: `_contentCache`
(parsed items of loaded categories) and `_pendingRequests` (the promise of
a fetch that has started but not settled, identified here by a promise
id).  The maps are modeled as association lists; the asynchronous parts of
`loadCategoryContent` are modeled by the synchronous prefix
`loadCategoryContentStart` (everything the call does before its first
`await`, which is where a concurrent second call can observe the state) and
by `loadCategoryContentRun`, the full sequential execution of one call with
the outcome of its fetch supplied as a parameter. -/

/-- Look up a key in an association list. -/
def lookupA (m : List (Str × α)) (k : Str) : Option α :=
  match m with
  | [] => none
  | (k', v) :: rest => if k' = k then some v else lookupA rest k

/-- `Map.set`: replace the binding if the key is present, append it
otherwise. -/
def insertA (m : List (Str × α)) (k : Str) (v : α) : List (Str × α) :=
  match m with
  | [] => [(k, v)]
  | (k', v') :: rest => if k' = k then (k, v) :: rest else (k', v') :: insertA rest k v

/-- `Map.delete`. -/
def eraseA (m : List (Str × α)) (k : Str) : List (Str × α) :=
  match m with
  | [] => []
  | (k', v') :: rest => if k' = k then rest else (k', v') :: eraseA rest k

/-- The mutable state of the `DataService`. -/
structure DSState where
  contentCache : List (Str × List ContentItem) := []
  pendingRequests : List (Str × Nat) := []
deriving DecidableEq, Repr

/-- `DataService.isCategoryLoaded`. -/
def isCategoryLoaded (st : DSState) (id : Str) : Bool :=
  (lookupA st.contentCache id).isSome

/-- The outcome of one `fetch` of a category file: an HTTP response with a
status and a body, or a thrown error (network failure, a failing
`response.text()`, or any other exception raised inside the `try` block of
`_fetchAndParseCategoryContent`). -/
inductive FetchOutcome where
  | response (status : Nat) (body : Str)
  | thrown
deriving DecidableEq, Repr

/-- `Response.ok`: status in the inclusive range 200–299. -/
def respOk (status : Nat) : Bool :=
  200 ≤ status && status ≤ 299

/-- `DataService._fetchAndParseCategoryContent`: on a non-ok response or a
thrown error, cache `[]` for the id and return `[]`; on an ok response,
parse the body, cache and return the items. -/
def fetchAndParseCategoryContent (st : DSState) (id : Str) (outcome : FetchOutcome) :
    DSState × List ContentItem :=
  match outcome with
  | FetchOutcome.response status body =>
    if respOk status then
      let items := parseContentL body
      ({ st with contentCache := insertA st.contentCache id items }, items)
    else ({ st with contentCache := insertA st.contentCache id [] }, [])
  | FetchOutcome.thrown =>
    ({ st with contentCache := insertA st.contentCache id [] }, [])

/-- What the synchronous prefix of `DataService.loadCategoryContent`
decides to do. -/
inductive LoadAction where
  | noPath
  | cached (items : List ContentItem)
  | joined (promiseId : Nat)
  | fetchStarted (promiseId : Nat)
deriving DecidableEq, Repr

/-- The synchronous prefix of `DataService.loadCategoryContent` for the
category `cat`: return `[]` when the path is falsy; return the cached items
on a cache hit; return the pending promise when one exists for the id;
otherwise create the load promise (`fresh` is its identity) and record it
in `_pendingRequests`. -/
def loadCategoryContentStart (st : DSState) (cat : CategoryMeta) (fresh : Nat) :
    DSState × LoadAction :=
  match cat.path with
  | none => (st, LoadAction.noPath)
  | some p =>
    if p = [] then (st, LoadAction.noPath)
    else
      match lookupA st.contentCache cat.id with
      | some items => (st, LoadAction.cached items)
      | none =>
        match lookupA st.pendingRequests cat.id with
        | some pr => (st, LoadAction.joined pr)
        | none =>
          ({ st with pendingRequests := insertA st.pendingRequests cat.id fresh },
           LoadAction.fetchStarted fresh)

/-- One complete, uninterleaved execution of
`DataService.loadCategoryContent`: the synchronous prefix followed, when a
fetch was started, by `_fetchAndParseCategoryContent` with the given
outcome and by the `finally` clause that deletes the pending entry.  The
`joined` case (only reachable when another call is in flight, in which case
this call just returns the other call's promise) returns the state
unchanged; it is analysed through `loadCategoryContentStart`. -/
def loadCategoryContentRun (st : DSState) (cat : CategoryMeta) (fresh : Nat)
    (outcome : FetchOutcome) : DSState × List ContentItem :=
  match loadCategoryContentStart st cat fresh with
  | (st', LoadAction.noPath) => (st', [])
  | (st', LoadAction.cached items) => (st', items)
  | (st', LoadAction.joined _) => (st', [])
  | (st', LoadAction.fetchStarted _) =>
    let res := fetchAndParseCategoryContent st' cat.id outcome
    ({ res.1 with pendingRequests := eraseA res.1.pendingRequests cat.id }, res.2)

/-! ## Helper lemmas about the sort model -/

theorem mem_insertCmp (cmp : α → α → Int) (x a : α) (l : List α) :
    a ∈ insertCmp cmp x l ↔ a = x ∨ a ∈ l := by
  induction l with
  | nil => simp [insertCmp]
  | cons y ys ih =>
    simp only [insertCmp]
    split
    · simp [List.mem_cons]
    · simp only [List.mem_cons, ih]
      tauto

theorem mem_jsSort_aux (cmp : α → α → Int) (l : List α) (acc : List α) (a : α) :
    a ∈ l.foldl (fun acc x => insertCmp cmp x acc) acc ↔ a ∈ acc ∨ a ∈ l := by
  induction l generalizing acc with
  | nil => simp
  | cons x xs ih =>
    simp only [List.foldl_cons, ih, mem_insertCmp, List.mem_cons]
    tauto

theorem mem_jsSort (cmp : α → α → Int) (l : List α) (a : α) :
    a ∈ jsSort cmp l ↔ a ∈ l := by
  simp [jsSort, mem_jsSort_aux]

theorem jsSort_eq_nil_iff (cmp : α → α → Int) (l : List α) :
    jsSort cmp l = [] ↔ l = [] := by
  constructor
  · intro h
    cases l with
    | nil => rfl
    | cons x xs =>
      have hx : x ∈ jsSort cmp (x :: xs) := (mem_jsSort _ _ _).mpr (List.mem_cons_self _ _)
      rw [h] at hx
      cases hx
  · intro h
    subst h
    rfl

/-- Sort key order is preserved by insertion: inserting into a list that is
pairwise sorted by the key yields a list pairwise sorted by the key, when
the comparator is the key difference. -/
theorem insertCmp_pairwise (key : α → Int) (x : α) (l : List α)
    (h : l.Pairwise (fun a b => key a ≤ key b)) :
    (insertCmp (fun a b => key a - key b) x l).Pairwise (fun a b => key a ≤ key b) := by
  induction l with
  | nil => simp [insertCmp]
  | cons y ys ih =>
    rw [List.pairwise_cons] at h
    simp only [insertCmp]
    split
    · next hlt =>
      rw [List.pairwise_cons]
      refine ⟨?_, List.pairwise_cons.mpr h⟩
      intro b hb
      rcases List.mem_cons.mp hb with hb | hb
      · subst hb; omega
      · have := h.1 b hb
        omega
    · next hge =>
      rw [List.pairwise_cons]
      refine ⟨?_, ih h.2⟩
      intro b hb
      rcases (mem_insertCmp _ _ _ _).mp hb with hb | hb
      · subst hb; omega
      · exact h.1 b hb

/-- Stability of one insertion: for a list sorted by the key, the new
element lands after every element with the same key, so filtering any key
class appends the new element (when it belongs to the class) and is
untouched otherwise. -/
theorem insertCmp_filter (key : α → Int) (x : α) (l : List α) (k : Int)
    (h : l.Pairwise (fun a b => key a ≤ key b)) :
    (insertCmp (fun a b => key a - key b) x l).filter (fun a => decide (key a = k)) =
      if key x = k then l.filter (fun a => decide (key a = k)) ++ [x]
      else l.filter (fun a => decide (key a = k)) := by
  induction l with
  | nil =>
    by_cases hk : key x = k <;> simp [insertCmp, hk]
  | cons y ys ih =>
    rw [List.pairwise_cons] at h
    simp only [insertCmp]
    split
    · next hlt =>
      by_cases hk : key x = k
      · have h1 : (y :: ys).filter (fun a => decide (key a = k)) = [] := by
          rw [List.filter_eq_nil_iff]
          intro b hb
          simp only [decide_eq_true_eq]
          rcases List.mem_cons.mp hb with hb | hb
          · subst hb; omega
          · have := h.1 b hb; omega
        simp [hk, h1, List.filter_cons]
      · simp [hk, List.filter_cons]
    · next hge =>
      by_cases hyk : key y = k <;> by_cases hxk : key x = k <;>
        simp [List.filter_cons, hyk, hxk, ih h.2]

theorem jsSort_pairwise (key : α → Int) (l : List α) :
    (jsSort (fun a b => key a - key b) l).Pairwise (fun a b => key a ≤ key b) := by
  induction l using List.reverseRecOn with
  | nil => simp [jsSort]
  | append_singleton xs x ih =>
    simp only [jsSort, List.foldl_append, List.foldl_cons, List.foldl_nil]
    exact insertCmp_pairwise key x _ ih

/-- Stability of the sort model: filtering the sorted list by any key class
gives exactly the input's elements of that class, in input order. -/
theorem jsSort_filter (key : α → Int) (l : List α) (k : Int) :
    (jsSort (fun a b => key a - key b) l).filter (fun a => decide (key a = k)) =
      l.filter (fun a => decide (key a = k)) := by
  induction l using List.reverseRecOn with
  | nil => simp [jsSort]
  | append_singleton xs x ih =>
    simp only [jsSort, List.foldl_append, List.foldl_cons, List.foldl_nil]
    have hs := jsSort_pairwise key xs
    simp only [jsSort] at hs
    simp only [jsSort] at ih
    rw [insertCmp_filter key x _ k hs, List.filter_append]
    by_cases hk : key x = k <;>
      simp [ih, hk, List.filter_cons, List.filter_nil]

/-! ## Claim C1: the single-gallery input -/

/-- The input of claim C1. -/
def c1Input : String :=
  "## 独立开发者\n### PyCarrot\n描述：测试\n技术栈：Python\n状态：开发中\n链接：[GitHub](https://x.com)\n"

/-- The sub-item that actually carries the `PyCarrot` data. -/
def c1Sub : SubItem :=
  { title := "PyCarrot".toList
    desc := some "测试".toList
    tech := some "Python".toList
    status := some "开发中".toList
    linkText := some "GitHub".toList
    linkUrl := some "https://x.com".toList }

/-- The item actually returned for the C1 input: the `##` heading is the
item, the `###` heading opens a gallery sub-item inside it. -/
def c1Item : ContentItem :=
  { fields := { title := "独立开发者".toList }
    isSet := true
    photos := some [c1Sub]
    hasSub := true }

/-- C1, counterexample: the single item returned for the C1 input is titled
`独立开发者` (the `##` heading), not `PyCarrot` as the claim asserts, so the
claimed output item is not the returned one. -/
theorem c1_counterexample :
    (parseContent c1Input).map (fun i => i.fields.title) = ["独立开发者".toList] ∧
    "独立开发者".toList ≠ "PyCarrot".toList := by
  constructor
  · decide
  · decide

/-- C1 (amended): for the C1 input, `parseContent` returns exactly one item,
titled by the `##` heading `独立开发者`, marked `isSet`, whose `photos` list
holds exactly one sub-item with title `PyCarrot` and the claimed `desc`,
`tech`, `status`, `linkText` and `linkUrl` values. -/
theorem c1_amended : parseContent c1Input = [c1Item] := by
  decide

/-! ## Claim C4: the category sort of `parseConfig` -/

/-- The input of the C4 counterexample: a category with explicit order `0`
followed by one with order `1`. -/
def c4Input : String :=
  "## 展示类别\n### Alpha\n展示序号：0\n### Beta\n展示序号：1\n"

/-- The sort key as the claim reads it: the category's parsed order value,
with a missing or non-numeric (`NaN`) order in the default-99 bucket. -/
def claimOrderKey (c : CategoryMeta) : Int :=
  match c.order with
  | some (JsIntVal.num n) => n
  | some JsIntVal.nan => 99
  | none => 99

/-- C4, counterexample: for the C4 input the returned categories carry the
order values `1` and then `0` — not ascending by order value as the claim
asserts.  The category with order `0` is placed in the default-99 bucket,
because `0` is falsy in `a.order || 99`. -/
theorem c4_counterexample :
    ((parseConfig c4Input).categories.map claimOrderKey) = [1, 0] ∧ ¬ ((1 : Int) ≤ 0) := by
  constructor
  · decide
  · decide

/-- C4 (amended): for every configuration text the categories returned by
`parseConfig` are sorted ascending by the effective order key
`(order || 99)` — under which a missing, non-numeric, or zero order falls
into the default-99 bucket — and the sort is stable: for every key value,
the categories with that key appear exactly as in document order (the
pre-sort parse). -/
theorem c4_amended (md : String) :
    ((parseConfig md).categories.Pairwise (fun a b => effOrder a ≤ effOrder b)) ∧
    (∀ k : Int, (parseConfig md).categories.filter (fun c => decide (effOrder c = k)) =
      (parseConfigRawL md.toList).categories.filter (fun c => decide (effOrder c = k))) := by
  have hfun : catCmp = fun a b => effOrder a - effOrder b := rfl
  constructor
  · have h := jsSort_pairwise effOrder (parseConfigRawL md.toList).categories
    simpa [parseConfig, parseConfigL, hfun] using h
  · intro k
    have h := jsSort_filter effOrder (parseConfigRawL md.toList).categories k
    simpa [parseConfig, parseConfigL, hfun] using h

/-! ## Claims C5 and C9: invariants of the parsed item list -/

/-- The C9 invariant that actually holds: every returned item carries a
`photos` property, and it is non-empty only on gallery items. -/
def photosOnlyWhenSet (i : ContentItem) : Prop :=
  i.photos.isSome = true ∧ (i.photos ≠ some [] → i.isSet = true)

/-- The joint loop invariant for C5 and C9: every pushed item has a truthy
title and satisfies the photos invariant, and so does the open item for the
photos part. -/
def contentInv (st : ParseState) : Prop :=
  (∀ i ∈ st.items, i.fields.title ≠ [] ∧ photosOnlyWhenSet i) ∧
  (∀ i, st.cur = some i → photosOnlyWhenSet i)

theorem photosOnlyWhenSet_writeTarget (it : ContentItem) (t : SubItem)
    (h : photosOnlyWhenSet it) : photosOnlyWhenSet (writeTarget it t) := by
  unfold writeTarget
  split
  · next hcond =>
    refine ⟨?_, ?_⟩
    · simpa using h.1
    · intro _
      have hc := hcond
      simp only [Bool.and_eq_true] at hc
      exact hc.1
  · exact h

theorem photosOnlyWhenSet_contentLineStep (it : ContentItem) (l : Str)
    (h : photosOnlyWhenSet it) : photosOnlyWhenSet (contentLineStep it l) := by
  unfold contentLineStep
  split
  · exact photosOnlyWhenSet_writeTarget _ _ h
  · split
    · exact ⟨h.1, fun _ => rfl⟩
    · exact photosOnlyWhenSet_writeTarget _ _ h

theorem photosOnlyWhenSet_addSub (it : ContentItem) (ti : Str) :
    photosOnlyWhenSet (addSub it ti) := by
  exact ⟨rfl, fun _ => rfl⟩

theorem photosOnlyWhenSet_new (ti : Str) : photosOnlyWhenSet (newContentItem ti) := by
  refine ⟨rfl, fun hne => absurd rfl hne⟩

theorem contentInv_pushItem (st : ParseState) (h : contentInv st) :
    contentInv (pushItem st) ∧
      ∀ i ∈ (pushItem st).items, i.fields.title ≠ [] ∧ photosOnlyWhenSet i := by
  unfold pushItem
  cases hc : st.cur with
  | some it =>
    simp only
    split
    · next hti =>
      have hinv : ∀ i ∈ st.items ++ [it], i.fields.title ≠ [] ∧ photosOnlyWhenSet i := by
        intro i hi
        rcases List.mem_append.mp hi with hi | hi
        · exact h.1 i hi
        · rcases List.mem_singleton.mp hi with rfl
          exact ⟨hti, h.2 _ hc⟩
      exact ⟨⟨hinv, fun i hi => absurd hi (by simp)⟩, hinv⟩
    · exact ⟨⟨h.1, fun i hi => absurd hi (by simp)⟩, h.1⟩
  | none =>
    simp only
    exact ⟨⟨h.1, fun i hi => absurd hi (by simp)⟩, h.1⟩

theorem contentInv_step (st : ParseState) (line : Str) (h : contentInv st) :
    contentInv (contentStep st line) := by
  unfold contentStep
  simp only
  split
  · -- H2: push, then open a fresh item
    refine ⟨(contentInv_pushItem st h).1.1, ?_⟩
    intro i hi
    simp only [Option.some.injEq] at hi
    subst hi
    exact photosOnlyWhenSet_new _
  · split
    · -- H3: extend the open item, if any
      cases hc : st.cur with
      | some it =>
        simp only
        refine ⟨h.1, ?_⟩
        intro i hi
        simp only [Option.some.injEq] at hi
        subst hi
        exact photosOnlyWhenSet_addSub _ _
      | none => simpa using h
    · -- field line on the open item, if any
      cases hc : st.cur with
      | some it =>
        simp only
        refine ⟨h.1, ?_⟩
        intro i hi
        simp only [Option.some.injEq] at hi
        subst hi
        exact photosOnlyWhenSet_contentLineStep _ _ (h.2 it hc)
      | none => simpa using h

theorem contentInv_foldl (md : Str) :
    contentInv ((splitLines md).foldl contentStep { items := [], cur := none }) := by
  refine List.foldlRecOn (splitLines md) contentStep _ ?_ ?_
  · exact ⟨fun i hi => absurd hi (by simp), fun i hi => absurd hi (by simp)⟩
  · intro st hst line _
    exact contentInv_step st line hst

theorem sortPhotos_fields (i : ContentItem) : (sortPhotos i).fields = i.fields := by
  unfold sortPhotos
  split <;> rfl

theorem photosOnlyWhenSet_sortPhotos (i : ContentItem) (h : photosOnlyWhenSet i) :
    photosOnlyWhenSet (sortPhotos i) := by
  unfold sortPhotos
  split
  · next hcond =>
    refine ⟨by simpa using h.1, ?_⟩
    intro _
    have hc := hcond
    simp only [Bool.and_eq_true] at hc
    exact hc.1
  · exact h

/-- The two invariants carried to the final output list. -/
theorem parseContentL_inv (md : Str) :
    ∀ i ∈ parseContentL md, i.fields.title ≠ [] ∧ photosOnlyWhenSet i := by
  intro i hi
  unfold parseContentL at hi
  rcases List.mem_map.mp hi with ⟨j, hj, rfl⟩
  have hj' := (mem_jsSort _ _ _).mp hj
  have hinv := (contentInv_pushItem _ (contentInv_foldl md)).2 j hj'
  refine ⟨?_, photosOnlyWhenSet_sortPhotos _ hinv.2⟩
  rw [sortPhotos_fields]
  exact hinv.1

/-- C5: every item returned by `parseContent` has a non-empty title; a
heading block without recognizable title text is dropped by `pushItem` and
never appears in the output. -/
theorem c5_title_nonempty (md : String) :
    ∀ i ∈ parseContent md, i.fields.title ≠ [] := by
  intro i hi
  exact (parseContentL_inv md.toList i hi).1

/-- The single item returned for the input `## W`. -/
def c5Item : ContentItem :=
  { fields := { title := ['W'] }, isSet := false, photos := some [], hasSub := false }

/-- Witness for C5 at a concrete input. -/
theorem c5_title_nonempty_witness :
    c5Item ∈ parseContent "## W\n" ∧ c5Item.fields.title ≠ [] :=
  ⟨by decide, c5_title_nonempty "## W\n" c5Item (by decide)⟩

/-- The input of the C9 counterexample: a plain, non-gallery item. -/
def c9Input : String := "## A\n描述：x"

/-- C9, counterexample: the single (non-gallery) item returned for the C9
input carries `isSet = false` and yet has a `photos` property (the empty
array `##` items are created with) — contradicting the claim that items
that are not galleries carry no `photos` field. -/
theorem c9_counterexample :
    (parseContent c9Input).map (fun i => (i.photos, i.isSet)) =
      [(some ([] : List SubItem), false)] := by
  decide

/-- C9 (amended): every item returned by `parseContent` carries a `photos`
property (`##` items are created with `photos: []`), and `photos` is
non-empty only on items whose `isSet` flag is true. -/
theorem c9_amended (md : String) :
    ∀ i ∈ parseContent md, i.photos.isSome = true ∧ (i.photos ≠ some [] → i.isSet = true) := by
  intro i hi
  exact (parseContentL_inv md.toList i hi).2

/-- The single gallery item returned for the input `## G` / `### P`. -/
def c9Item : ContentItem :=
  { fields := { title := ['G'] }, isSet := true, photos := some [{ title := ['P'] }]
    hasSub := true }

/-- Witness for C9 (amended) at a concrete gallery input. -/
theorem c9_amended_witness :
    c9Item ∈ parseContent "## G\n### P\n" ∧
    (c9Item.photos.isSome = true ∧ (c9Item.photos ≠ some [] → c9Item.isSet = true)) :=
  ⟨by decide, c9_amended "## G\n### P\n" c9Item (by decide)⟩

/-! ## Claim C6: slug purity -/

theorem char_toNat_ofNat_valid (n : Nat) (h : Nat.isValidChar n) : (Char.ofNat n).toNat = n := by
  simp [Char.ofNat, h, Char.ofNatAux, Char.toNat, UInt32.toNat, BitVec.toNat_ofNatLt]

/-- A character outside every uppercase range is fixed by `jsToLower`. -/
theorem jsToLower_fixed (d : Char)
    (h1 : ¬ (65 ≤ d.toNat ∧ d.toNat ≤ 90))
    (h2 : ¬ (0xC0 ≤ d.toNat ∧ d.toNat ≤ 0xDE ∧ d.toNat ≠ 0xD7))
    (h3 : ¬ (0x391 ≤ d.toNat ∧ d.toNat ≤ 0x3A1))
    (h4 : ¬ (0x3A3 ≤ d.toNat ∧ d.toNat ≤ 0x3AB))
    (h5 : ¬ (0x410 ≤ d.toNat ∧ d.toNat ≤ 0x42F))
    (h6 : ¬ (0x400 ≤ d.toNat ∧ d.toNat ≤ 0x40F)) : jsToLower d = d := by
  unfold jsToLower
  rw [if_neg h1, if_neg h2, if_neg h3, if_neg h4, if_neg h5, if_neg h6]

theorem jsToLower_idem (c : Char) : jsToLower (jsToLower c) = jsToLower c := by
  by_cases h1 : 65 ≤ c.toNat ∧ c.toNat ≤ 90
  · have hc : jsToLower c = Char.ofNat (c.toNat + 32) := by
      unfold jsToLower
      rw [if_pos h1]
    have ht : (Char.ofNat (c.toNat + 32)).toNat = c.toNat + 32 :=
      char_toNat_ofNat_valid _ (Or.inl (by omega))
    rw [hc]
    exact jsToLower_fixed _ (by rw [ht]; omega) (by rw [ht]; omega) (by rw [ht]; omega)
      (by rw [ht]; omega) (by rw [ht]; omega) (by rw [ht]; omega)
  · by_cases h2 : 0xC0 ≤ c.toNat ∧ c.toNat ≤ 0xDE ∧ c.toNat ≠ 0xD7
    · have hc : jsToLower c = Char.ofNat (c.toNat + 32) := by
        unfold jsToLower
        rw [if_neg h1, if_pos h2]
      have ht : (Char.ofNat (c.toNat + 32)).toNat = c.toNat + 32 :=
        char_toNat_ofNat_valid _ (Or.inl (by omega))
      rw [hc]
      exact jsToLower_fixed _ (by rw [ht]; omega) (by rw [ht]; omega) (by rw [ht]; omega)
        (by rw [ht]; omega) (by rw [ht]; omega) (by rw [ht]; omega)
    · by_cases h3 : 0x391 ≤ c.toNat ∧ c.toNat ≤ 0x3A1
      · have hc : jsToLower c = Char.ofNat (c.toNat + 32) := by
          unfold jsToLower
          rw [if_neg h1, if_neg h2, if_pos h3]
        have ht : (Char.ofNat (c.toNat + 32)).toNat = c.toNat + 32 :=
          char_toNat_ofNat_valid _ (Or.inl (by omega))
        rw [hc]
        exact jsToLower_fixed _ (by rw [ht]; omega) (by rw [ht]; omega) (by rw [ht]; omega)
          (by rw [ht]; omega) (by rw [ht]; omega) (by rw [ht]; omega)
      · by_cases h4 : 0x3A3 ≤ c.toNat ∧ c.toNat ≤ 0x3AB
        · have hc : jsToLower c = Char.ofNat (c.toNat + 32) := by
            unfold jsToLower
            rw [if_neg h1, if_neg h2, if_neg h3, if_pos h4]
          have ht : (Char.ofNat (c.toNat + 32)).toNat = c.toNat + 32 :=
            char_toNat_ofNat_valid _ (Or.inl (by omega))
          rw [hc]
          exact jsToLower_fixed _ (by rw [ht]; omega) (by rw [ht]; omega) (by rw [ht]; omega)
            (by rw [ht]; omega) (by rw [ht]; omega) (by rw [ht]; omega)
        · by_cases h5 : 0x410 ≤ c.toNat ∧ c.toNat ≤ 0x42F
          · have hc : jsToLower c = Char.ofNat (c.toNat + 32) := by
              unfold jsToLower
              rw [if_neg h1, if_neg h2, if_neg h3, if_neg h4, if_pos h5]
            have ht : (Char.ofNat (c.toNat + 32)).toNat = c.toNat + 32 :=
              char_toNat_ofNat_valid _ (Or.inl (by omega))
            rw [hc]
            exact jsToLower_fixed _ (by rw [ht]; omega) (by rw [ht]; omega) (by rw [ht]; omega)
              (by rw [ht]; omega) (by rw [ht]; omega) (by rw [ht]; omega)
          · by_cases h6 : 0x400 ≤ c.toNat ∧ c.toNat ≤ 0x40F
            · have hc : jsToLower c = Char.ofNat (c.toNat + 80) := by
                unfold jsToLower
                rw [if_neg h1, if_neg h2, if_neg h3, if_neg h4, if_neg h5, if_pos h6]
              have ht : (Char.ofNat (c.toNat + 80)).toNat = c.toNat + 80 :=
                char_toNat_ofNat_valid _ (Or.inl (by omega))
              rw [hc]
              exact jsToLower_fixed _ (by rw [ht]; omega) (by rw [ht]; omega) (by rw [ht]; omega)
                (by rw [ht]; omega) (by rw [ht]; omega) (by rw [ht]; omega)
            · have hc : jsToLower c = c := jsToLower_fixed c h1 h2 h3 h4 h5 h6
              rw [hc, hc]

theorem mem_runToHyphen (p : Char → Bool) (l : Str) (c : Char) :
    ∀ b, c ∈ runToHyphen p b l → c = '-' ∨ (c ∈ l ∧ p c = false) := by
  induction l with
  | nil => intro b h; cases h
  | cons x xs ih =>
    intro b h
    by_cases hx : p x = true
    · simp only [runToHyphen, hx, if_true] at h
      cases b with
      | true =>
        rcases ih true h with h | h
        · exact Or.inl h
        · exact Or.inr ⟨List.mem_cons_of_mem _ h.1, h.2⟩
      | false =>
        rcases List.mem_cons.mp h with h | h
        · exact Or.inl h
        · rcases ih true h with h | h
          · exact Or.inl h
          · exact Or.inr ⟨List.mem_cons_of_mem _ h.1, h.2⟩
    · rw [Bool.not_eq_true] at hx
      simp only [runToHyphen, hx, Bool.false_eq_true, if_false] at h
      rcases List.mem_cons.mp h with h | h
      · subst h
        exact Or.inr ⟨List.mem_cons_self _ _, hx⟩
      · rcases ih false h with h | h
        · exact Or.inl h
        · exact Or.inr ⟨List.mem_cons_of_mem _ h.1, h.2⟩

/-- No two adjacent hyphens occur in the list. -/
def noDoubleHyphen : Str → Bool
  | a :: b :: rest => !(a = '-' && b = '-') && noDoubleHyphen (b :: rest)
  | _ => true

theorem runToHyphen_hyphen_head (l : Str) :
    ∀ x, (runToHyphen (fun d => d = '-') true l).head? = some x → x ≠ '-' := by
  induction l with
  | nil => intro x h; cases h
  | cons c cs ih =>
    intro x h
    by_cases hc : c = '-'
    · simp [runToHyphen, hc] at h
      exact ih x h
    · simp only [runToHyphen, decide_eq_true_eq, hc, if_false] at h
      simp only [List.head?_cons, Option.some.injEq] at h
      subst h
      exact hc

theorem noDoubleHyphen_cons (y : Char) (X : Str)
    (hX : noDoubleHyphen X = true)
    (hhead : ∀ x, X.head? = some x → ¬(y = '-' ∧ x = '-')) :
    noDoubleHyphen (y :: X) = true := by
  cases X with
  | nil => rfl
  | cons x xs =>
    have hx := hhead x rfl
    simp only [noDoubleHyphen, Bool.and_eq_true, Bool.not_eq_true']
    refine ⟨?_, hX⟩
    by_cases hy : y = '-'
    · by_cases hx2 : x = '-'
      · exact absurd ⟨hy, hx2⟩ hx
      · simp [hy, hx2]
    · simp [hy]

theorem noDoubleHyphen_runToHyphen (l : Str) :
    ∀ b, noDoubleHyphen (runToHyphen (fun d => d = '-') b l) = true := by
  induction l with
  | nil => intro b; rfl
  | cons c cs ih =>
    intro b
    by_cases hc : c = '-'
    · cases b with
      | true => simpa [runToHyphen, hc] using ih true
      | false =>
        simp [runToHyphen, hc]
        refine noDoubleHyphen_cons _ _ (ih true) ?_
        intro x hx
        intro hcontra
        exact runToHyphen_hyphen_head cs x hx hcontra.2
    · simp only [runToHyphen, decide_eq_true_eq, hc, if_false]
      refine noDoubleHyphen_cons _ _ (ih false) ?_
      intro x _
      intro hcontra
      exact hc hcontra.1

/-- The characters the amended claim allows in a slug: letters invariant
under `toLowerCase` (lowercase or caseless letters, and the cased letters
without a lowercase mapping), digits, hyphen, underscore, period. -/
def slugChar (c : Char) : Bool :=
  (isUnicodeLetter c && decide (jsToLower c = c)) ||
  isUnicodeDigit c || c = '-' || c = '_' || c = '.'

/-- C6, counterexample: `𝐀` (U+1D400 MATHEMATICAL BOLD CAPITAL A) is an
uppercase letter with no lowercase mapping, so `toLowerCase` leaves it
unchanged and the strip step keeps it (it is `\p{L}`): `slugify` returns it
verbatim, and the output contains a letter that is not lowercase — and is
no digit, hyphen, underscore or period either — contradicting the claim. -/
theorem c6_counterexample :
    slugify "𝐀".toList = "𝐀".toList ∧
    isUnicodeLetter '𝐀' = true ∧
    isLowercaseLetter '𝐀' = false ∧
    isUnicodeDigit '𝐀' = false ∧
    '𝐀' ≠ '-' ∧ '𝐀' ≠ '_' ∧ '𝐀' ≠ '.' := by
  refine ⟨by decide, by decide, by decide, by decide, by decide, by decide, by decide⟩

/-- C6 (amended): `slugify` produces only letters invariant under
`toLowerCase` (every letter with a lowercase mapping has been lowercased;
what remains lowercase, caseless, or unmapped-uppercase such as `𝐀`),
digits, hyphens, underscores and periods — no other characters — and never
two adjacent hyphens. -/
theorem c6_slug_purity (s : Str) :
    (slugify s).all slugChar = true ∧ noDoubleHyphen (slugify s) = true := by
  constructor
  · rw [List.all_eq_true]
    intro c hc
    unfold slugify collapseHyphens at hc
    rcases mem_runToHyphen _ _ _ _ hc with hc | hc
    · subst hc; rfl
    · unfold wsToHyphen at hc
      rcases mem_runToHyphen _ _ _ _ hc.1 with hc2 | hc2
      · subst hc2; rfl
      · have hkeep := List.of_mem_filter hc2.1
        have hmem := List.mem_of_mem_filter hc2.1
        rcases List.mem_map.mp hmem with ⟨d, _, rfl⟩
        have hfix : jsToLower (jsToLower d) = jsToLower d := jsToLower_idem d
        have hnw : isWs (jsToLower d) = false := hc2.2
        simp only [keepSlugChar, Bool.or_eq_true, decide_eq_true_eq] at hkeep
        simp only [slugChar, Bool.or_eq_true, Bool.and_eq_true, decide_eq_true_eq]
        rcases hkeep with ((((hl | hd) | hw) | hh) | hu) | hp
        · exact Or.inl (Or.inl (Or.inl (Or.inl ⟨hl, hfix⟩)))
        · exact Or.inl (Or.inl (Or.inl (Or.inr hd)))
        · rw [hw] at hnw; cases hnw
        · exact Or.inl (Or.inl (Or.inr hh))
        · exact Or.inl (Or.inr hu)
        · exact Or.inr hp
  · unfold slugify collapseHyphens
    exact noDoubleHyphen_runToHyphen _ false

/-! ## Claim C3: properties of the item comparator -/

/-- The rational value denoted by `fin m e` (used only inside proofs; the
executable comparisons are `finLtB` / `finEqB`). -/
def finVal (m e : Int) : ℚ :=
  (m : ℚ) * (10 : ℚ) ^ e

theorem tenPow_eq (k : Nat) : tenPow k = (10 : ℤ) ^ k := by
  induction k with
  | zero => rfl
  | succ n ih => rw [tenPow, ih, pow_succ]; ring

theorem finVal_shift (m : Int) (e : Int) (k : Nat) :
    finVal (m * tenPow k) e = finVal m (e + k) := by
  unfold finVal
  rw [tenPow_eq, zpow_add₀ (by norm_num : (10:ℚ) ≠ 0), zpow_natCast]
  push_cast
  ring

theorem finVal_lt_iff_same (m1 m2 e : Int) : finVal m1 e < finVal m2 e ↔ m1 < m2 := by
  unfold finVal
  rw [mul_lt_mul_right (by positivity : (0:ℚ) < (10:ℚ) ^ e)]
  exact_mod_cast Iff.rfl

theorem finVal_eq_iff_same (m1 m2 e : Int) : finVal m1 e = finVal m2 e ↔ m1 = m2 := by
  unfold finVal
  have h10 : ((10:ℚ) ^ e) ≠ 0 := by positivity
  rw [mul_eq_mul_right_iff]
  simp [h10, Int.cast_inj]

theorem finLtB_iff (m1 e1 m2 e2 : Int) :
    finLtB m1 e1 m2 e2 = true ↔ finVal m1 e1 < finVal m2 e2 := by
  unfold finLtB
  split
  · next h =>
    have h1 : finVal m1 e1 = finVal (m1 * tenPow (e1 - e2).toNat) e2 := by
      rw [finVal_shift]
      congr 1
      omega
    rw [h1, decide_eq_true_eq, finVal_lt_iff_same]
  · next h =>
    have h1 : finVal m2 e2 = finVal (m2 * tenPow (e2 - e1).toNat) e1 := by
      rw [finVal_shift]
      congr 1
      omega
    rw [h1, decide_eq_true_eq, finVal_lt_iff_same]

theorem finEqB_iff (m1 e1 m2 e2 : Int) :
    finEqB m1 e1 m2 e2 = true ↔ finVal m1 e1 = finVal m2 e2 := by
  unfold finEqB
  split
  · next h =>
    have h1 : finVal m1 e1 = finVal (m1 * tenPow (e1 - e2).toNat) e2 := by
      rw [finVal_shift]
      congr 1
      omega
    rw [h1, decide_eq_true_eq, finVal_eq_iff_same]
  · next h =>
    have h1 : finVal m2 e2 = finVal (m2 * tenPow (e2 - e1).toNat) e1 := by
      rw [finVal_shift]
      congr 1
      omega
    rw [h1, decide_eq_true_eq, finVal_eq_iff_same]

theorem JsFloat.lt_asymm' (x y : JsFloat) (h : x.lt y = true) : y.lt x = false := by
  cases x <;> cases y
  case fin.fin =>
    simp only [JsFloat.lt] at h ⊢
    rw [finLtB_iff] at h
    rw [Bool.eq_false_iff]
    intro h2
    rw [finLtB_iff] at h2
    linarith
  all_goals first
    | rfl
    | exact absurd h (by simp [JsFloat.lt])

theorem JsFloat.lt_trans' (x y z : JsFloat) (h1 : x.lt y = true) (h2 : y.lt z = true) :
    x.lt z = true := by
  cases x <;> cases y <;> cases z
  case fin.fin.fin =>
    simp only [JsFloat.lt] at h1 h2 ⊢
    rw [finLtB_iff] at h1 h2 ⊢
    linarith
  all_goals simp_all [JsFloat.lt]

theorem JsFloat.lt_or_lt (x y : JsFloat) (hx : x.isNaN = false) (hy : y.isNaN = false)
    (hne : x.feq y = false) : x.lt y = true ∨ y.lt x = true := by
  cases x <;> cases y
  case fin.fin =>
    simp only [JsFloat.lt, JsFloat.feq] at hne ⊢
    rw [finLtB_iff, finLtB_iff]
    have hne2 := Bool.eq_false_iff.mp hne
    rcases lt_or_gt_of_ne (fun he => hne2 ((finEqB_iff _ _ _ _).mpr he)) with h | h
    · exact Or.inl h
    · exact Or.inr h
  all_goals simp_all [JsFloat.lt, JsFloat.feq, JsFloat.isNaN]

theorem JsFloat.feq_symm (x y : JsFloat) : x.feq y = y.feq x := by
  cases x with
  | fin m1 e1 =>
    cases y with
    | fin m2 e2 =>
      simp only [JsFloat.feq]
      by_cases h : finVal m1 e1 = finVal m2 e2
      · rw [(finEqB_iff _ _ _ _).mpr h, (finEqB_iff _ _ _ _).mpr h.symm]
      · rw [Bool.eq_false_iff.mpr (fun hx => h ((finEqB_iff _ _ _ _).mp hx)),
          Bool.eq_false_iff.mpr (fun hx => h (((finEqB_iff _ _ _ _).mp hx).symm))]
    | negInf => rfl
    | posInf => rfl
    | nan => rfl
  | negInf => cases y <;> rfl
  | posInf => cases y <;> rfl
  | nan => cases y <;> rfl

theorem JsFloat.lt_of_lt_of_feq (x y z : JsFloat) (h1 : x.lt y = true)
    (h2 : y.feq z = true) : x.lt z = true := by
  cases x <;> cases y <;> cases z
  case fin.fin.fin =>
    simp only [JsFloat.lt, JsFloat.feq] at h1 h2 ⊢
    rw [finLtB_iff] at h1 ⊢
    rw [finEqB_iff] at h2
    linarith
  all_goals simp_all [JsFloat.lt, JsFloat.feq]

theorem JsFloat.lt_of_feq_of_lt (x y z : JsFloat) (h1 : x.feq y = true)
    (h2 : y.lt z = true) : x.lt z = true := by
  cases x <;> cases y <;> cases z
  case fin.fin.fin =>
    simp only [JsFloat.lt, JsFloat.feq] at h1 h2 ⊢
    rw [finLtB_iff] at h2 ⊢
    rw [finEqB_iff] at h1
    linarith
  all_goals simp_all [JsFloat.lt, JsFloat.feq]

theorem JsFloat.feq_trans (x y z : JsFloat) (h1 : x.feq y = true) (h2 : y.feq z = true) :
    x.feq z = true := by
  cases x <;> cases y <;> cases z
  case fin.fin.fin =>
    simp only [JsFloat.feq] at h1 h2 ⊢
    rw [finEqB_iff] at h1 h2 ⊢
    rw [h1, h2]
  all_goals simp_all [JsFloat.feq]

theorem JsFloat.strictNe_comm (x y : JsFloat) : x.strictNe y = y.strictNe x := by
  unfold JsFloat.strictNe
  rw [JsFloat.feq_symm]
  cases x.isNaN <;> cases y.isNaN <;> simp

theorem lexCmp_antisymm (a b : Str) : lexCmp a b = -(lexCmp b a) := by
  induction a generalizing b with
  | nil => cases b <;> simp [lexCmp]
  | cons x xs ih =>
    cases b with
    | nil => simp [lexCmp]
    | cons y ys =>
      simp only [lexCmp]
      by_cases h1 : x.toNat < y.toNat
      · have h2 : ¬ y.toNat < x.toNat := by omega
        rw [if_pos h1, if_neg h2, if_pos h1]
      · by_cases h2 : y.toNat < x.toNat
        · rw [if_neg h1, if_pos h2, if_pos h2]
          norm_num
        · rw [if_neg h1, if_neg h2, if_neg h2, if_neg h1]
          exact ih ys

theorem lexCmp_trans_neg (a b c : Str) (h1 : lexCmp a b < 0) (h2 : lexCmp b c < 0) :
    lexCmp a c < 0 := by
  induction a generalizing b c with
  | nil =>
    cases b with
    | nil => exact h2
    | cons y ys =>
      cases c with
      | nil => simp [lexCmp] at h2
      | cons z zs => simp [lexCmp]
  | cons x xs ih =>
    cases b with
    | nil => simp [lexCmp] at h1
    | cons y ys =>
      cases c with
      | nil => simp [lexCmp] at h2
      | cons z zs =>
        simp only [lexCmp] at h1 h2 ⊢
        by_cases hxy : x.toNat < y.toNat
        · by_cases hyz : y.toNat < z.toNat
          · rw [if_pos (show x.toNat < z.toNat by omega)]
            norm_num
          · rw [if_neg hyz] at h2
            by_cases hzy : z.toNat < y.toNat
            · rw [if_pos hzy] at h2
              norm_num at h2
            · rw [if_pos (show x.toNat < z.toNat by omega)]
              norm_num
        · rw [if_neg hxy] at h1
          by_cases hyx : y.toNat < x.toNat
          · rw [if_pos hyx] at h1
            norm_num at h1
          · rw [if_neg hyx] at h1
            by_cases hyz : y.toNat < z.toNat
            · rw [if_pos (show x.toNat < z.toNat by omega)]
              norm_num
            · rw [if_neg hyz] at h2
              by_cases hzy : z.toNat < y.toNat
              · rw [if_pos hzy] at h2
                norm_num at h2
              · rw [if_neg hzy] at h2
                rw [if_neg (show ¬ x.toNat < z.toNat by omega),
                  if_neg (show ¬ z.toNat < x.toNat by omega)]
                exact ih ys zs h1 h2

/-- C3, counterexample: the comparator is not transitive.  With the order
tokens `3`, `+5` and `,`: `3` precedes `+5` numerically (3 < 5), `+5`
precedes `,` lexicographically (`+` before `,`, since `,` does not parse as
a number), `,` precedes `3` lexicographically — a strict cycle, and in
particular `3` does not precede `,`. -/
theorem c3_counterexample :
    orderCmp "3".toList "+5".toList < 0 ∧
    orderCmp "+5".toList ",".toList < 0 ∧
    orderCmp ",".toList "3".toList < 0 ∧
    ¬ (orderCmp "3".toList ",".toList < 0) := by
  refine ⟨by decide, by decide, by decide, by decide⟩

/-- C3 (amended): the comparator is antisymmetric for every pair of order
tokens, and it is transitive on tokens that all parse as floats; it is not
transitive in general (see the counterexample), so only the all-numeric
fragment is totally ordered by it. -/
theorem c3_amended :
    (∀ a b : Str, orderCmp a b = -(orderCmp b a)) ∧
    (∀ a b c : Str,
      (jsParseFloat a).isNaN = false → (jsParseFloat b).isNaN = false →
      (jsParseFloat c).isNaN = false →
      orderCmp a b < 0 → orderCmp b c < 0 → orderCmp a c < 0) := by
  constructor
  · intro a b
    simp only [orderCmp]
    by_cases hcond : (!(jsParseFloat a).isNaN && !(jsParseFloat b).isNaN &&
        (jsParseFloat a).strictNe (jsParseFloat b)) = true
    · have hcond2 : (!(jsParseFloat b).isNaN && !(jsParseFloat a).isNaN &&
          (jsParseFloat b).strictNe (jsParseFloat a)) = true := by
        simp only [Bool.and_eq_true] at hcond ⊢
        exact ⟨⟨hcond.1.2, hcond.1.1⟩, by rw [JsFloat.strictNe_comm]; exact hcond.2⟩
      rw [if_pos hcond, if_pos hcond2]
      simp only [Bool.and_eq_true, Bool.not_eq_true'] at hcond
      have hfeq : (jsParseFloat a).feq (jsParseFloat b) = false := by
        have h3 := hcond.2
        unfold JsFloat.strictNe at h3
        rw [hcond.1.1, hcond.1.2] at h3
        simpa using h3
      rcases JsFloat.lt_or_lt _ _ hcond.1.1 hcond.1.2 hfeq with h | h
      · rw [if_pos h, if_neg (by rw [JsFloat.lt_asymm' _ _ h]; exact Bool.false_ne_true)]
      · rw [if_neg (by rw [JsFloat.lt_asymm' _ _ h]; exact Bool.false_ne_true), if_pos h]
        all_goals norm_num
    · have hcond2 : ¬ ((!(jsParseFloat b).isNaN && !(jsParseFloat a).isNaN &&
          (jsParseFloat b).strictNe (jsParseFloat a)) = true) := by
        simp only [Bool.and_eq_true] at hcond ⊢
        intro hx
        exact hcond ⟨⟨hx.1.2, hx.1.1⟩, by rw [JsFloat.strictNe_comm]; exact hx.2⟩
      rw [if_neg hcond, if_neg hcond2]
      exact lexCmp_antisymm a b
  · intro a b c ha hb hc h1 h2
    simp only [orderCmp] at h1 h2 ⊢
    by_cases hab : (jsParseFloat a).feq (jsParseFloat b) = true
    · -- a and b denote the same number: the first comparison was lexicographic
      have hcond1 : (!(jsParseFloat a).isNaN && !(jsParseFloat b).isNaN &&
          (jsParseFloat a).strictNe (jsParseFloat b)) = false := by
        simp [JsFloat.strictNe, ha, hb, hab]
      rw [hcond1] at h1
      simp only [Bool.false_eq_true, if_false] at h1
      by_cases hbc : (jsParseFloat b).feq (jsParseFloat c) = true
      · have hcond2 : (!(jsParseFloat b).isNaN && !(jsParseFloat c).isNaN &&
            (jsParseFloat b).strictNe (jsParseFloat c)) = false := by
          simp [JsFloat.strictNe, hb, hc, hbc]
        rw [hcond2] at h2
        simp only [Bool.false_eq_true, if_false] at h2
        have hac : (jsParseFloat a).feq (jsParseFloat c) = true :=
          JsFloat.feq_trans _ _ _ hab hbc
        have hcond3 : (!(jsParseFloat a).isNaN && !(jsParseFloat c).isNaN &&
            (jsParseFloat a).strictNe (jsParseFloat c)) = false := by
          simp [JsFloat.strictNe, ha, hc, hac]
        rw [hcond3]
        simp only [Bool.false_eq_true, if_false]
        exact lexCmp_trans_neg a b c h1 h2
      · have hbc' : (jsParseFloat b).feq (jsParseFloat c) = false :=
          Bool.eq_false_iff.mpr hbc
        have hcond2 : (!(jsParseFloat b).isNaN && !(jsParseFloat c).isNaN &&
            (jsParseFloat b).strictNe (jsParseFloat c)) = true := by
          simp [JsFloat.strictNe, hb, hc, hbc']
        rw [hcond2, if_pos rfl] at h2
        have hltbc : (jsParseFloat b).lt (jsParseFloat c) = true := by
          by_cases h : (jsParseFloat b).lt (jsParseFloat c) = true
          · exact h
          · rw [if_neg h] at h2
            norm_num at h2
        have hltac : (jsParseFloat a).lt (jsParseFloat c) = true :=
          JsFloat.lt_of_feq_of_lt _ _ _ hab hltbc
        have hac : (jsParseFloat a).feq (jsParseFloat c) = false := by
          by_cases h : (jsParseFloat a).feq (jsParseFloat c) = true
          · exfalso
            have hself := JsFloat.lt_of_lt_of_feq _ _ _ hltac
              (by rw [JsFloat.feq_symm]; exact h)
            have hf := JsFloat.lt_asymm' _ _ hself
            rw [hself] at hf
            exact absurd hf (by decide)
          · exact Bool.eq_false_iff.mpr h
        have hcond3 : (!(jsParseFloat a).isNaN && !(jsParseFloat c).isNaN &&
            (jsParseFloat a).strictNe (jsParseFloat c)) = true := by
          simp [JsFloat.strictNe, ha, hc, hac]
        rw [hcond3, if_pos rfl, if_pos hltac]
        norm_num
    · have hab' : (jsParseFloat a).feq (jsParseFloat b) = false :=
        Bool.eq_false_iff.mpr hab
      have hcond1 : (!(jsParseFloat a).isNaN && !(jsParseFloat b).isNaN &&
          (jsParseFloat a).strictNe (jsParseFloat b)) = true := by
        simp [JsFloat.strictNe, ha, hb, hab']
      rw [hcond1, if_pos rfl] at h1
      have hltab : (jsParseFloat a).lt (jsParseFloat b) = true := by
        by_cases h : (jsParseFloat a).lt (jsParseFloat b) = true
        · exact h
        · rw [if_neg h] at h1
          norm_num at h1
      by_cases hbc : (jsParseFloat b).feq (jsParseFloat c) = true
      · have hltac : (jsParseFloat a).lt (jsParseFloat c) = true :=
          JsFloat.lt_of_lt_of_feq _ _ _ hltab hbc
        have hac : (jsParseFloat a).feq (jsParseFloat c) = false := by
          by_cases h : (jsParseFloat a).feq (jsParseFloat c) = true
          · exfalso
            have hself := JsFloat.lt_of_lt_of_feq _ _ _ hltac
              (by rw [JsFloat.feq_symm]; exact h)
            have hf := JsFloat.lt_asymm' _ _ hself
            rw [hself] at hf
            exact absurd hf (by decide)
          · exact Bool.eq_false_iff.mpr h
        have hcond3 : (!(jsParseFloat a).isNaN && !(jsParseFloat c).isNaN &&
            (jsParseFloat a).strictNe (jsParseFloat c)) = true := by
          simp [JsFloat.strictNe, ha, hc, hac]
        rw [hcond3, if_pos rfl, if_pos hltac]
        norm_num
      · have hbc' : (jsParseFloat b).feq (jsParseFloat c) = false :=
          Bool.eq_false_iff.mpr hbc
        have hcond2 : (!(jsParseFloat b).isNaN && !(jsParseFloat c).isNaN &&
            (jsParseFloat b).strictNe (jsParseFloat c)) = true := by
          simp [JsFloat.strictNe, hb, hc, hbc']
        rw [hcond2, if_pos rfl] at h2
        have hltbc : (jsParseFloat b).lt (jsParseFloat c) = true := by
          by_cases h : (jsParseFloat b).lt (jsParseFloat c) = true
          · exact h
          · rw [if_neg h] at h2
            norm_num at h2
        have hltac : (jsParseFloat a).lt (jsParseFloat c) = true :=
          JsFloat.lt_trans' _ _ _ hltab hltbc
        have hac : (jsParseFloat a).feq (jsParseFloat c) = false := by
          by_cases h : (jsParseFloat a).feq (jsParseFloat c) = true
          · exfalso
            have hself := JsFloat.lt_of_lt_of_feq _ _ _ hltac
              (by rw [JsFloat.feq_symm]; exact h)
            have hf := JsFloat.lt_asymm' _ _ hself
            rw [hself] at hf
            exact absurd hf (by decide)
          · exact Bool.eq_false_iff.mpr h
        have hcond3 : (!(jsParseFloat a).isNaN && !(jsParseFloat c).isNaN &&
            (jsParseFloat a).strictNe (jsParseFloat c)) = true := by
          simp [JsFloat.strictNe, ha, hc, hac]
        rw [hcond3, if_pos rfl, if_pos hltac]
        norm_num

/-- Witness for C3 (amended) at concrete tokens. -/
theorem c3_amended_witness :
    orderCmp "1".toList "2".toList = -(orderCmp "2".toList "1".toList) ∧
    orderCmp "1".toList "3".toList < 0 :=
  ⟨c3_amended.1 "1".toList "2".toList,
   c3_amended.2 "1".toList "2".toList "3".toList (by decide) (by decide) (by decide)
     (by decide) (by decide)⟩

/-! ## Claim C2: cover precedence -/

/-- If the line does not start with the pattern, `parseFieldNE` rejects. -/
theorem parseFieldNE_none_of_head (c : Char) (cs : Str) (d : Char) (ds : Str) (h : c ≠ d) :
    parseFieldNE (c :: cs) (d :: ds) = none := by
  simp [parseFieldNE, parseField, startsWithL, h]

theorem startsWithL_cons_ex (l : Str) (d : Char) (ds : Str)
    (h : startsWithL l (d :: ds) = true) : ∃ cs, l = d :: cs := by
  cases l with
  | nil => simp [startsWithL] at h
  | cons c cs =>
    simp only [startsWithL, Bool.and_eq_true, decide_eq_true_eq] at h
    exact ⟨cs, by rw [h.1]⟩

/-- Two field patterns with different first characters cannot both match a
line: a line that starts with `p` is rejected by `parseFieldNE` for `q`. -/
theorem parseFieldNE_none_of_starts (l p q : Str) (c : Char) (cp : Str) (d : Char)
    (dq : Str) (hp : p = c :: cp) (hq : q = d :: dq) (hcd : c ≠ d)
    (hs : startsWithL l p = true) : parseFieldNE l q = none := by
  subst hp
  subst hq
  rcases startsWithL_cons_ex l c cp hs with ⟨cs, rfl⟩
  exact parseFieldNE_none_of_head c cs d dq hcd

theorem parseFieldNE_starts (l pat v : Str) (h : parseFieldNE l pat = some v) :
    startsWithL l pat = true := by
  unfold parseFieldNE parseField at h
  by_cases hs : startsWithL l pat = true
  · exact hs
  · rw [if_neg hs] at h
    cases h

/-- A successful `parseField2NE` means the line starts with one of the two
patterns. -/
theorem parseField2NE_starts (l n1 n2 v : Str) (h : parseField2NE l n1 n2 = some v) :
    startsWithL l n1 = true ∨ startsWithL l n2 = true := by
  unfold parseField2NE at h
  cases h1 : parseFieldNE l n1 with
  | some w => exact Or.inl (parseFieldNE_starts l n1 w h1)
  | none =>
    rw [h1] at h
    exact Or.inr (parseFieldNE_starts l n2 v h)

/-- The URL a line contributes through the explicit `封面` / `Cover` rule:
`some u` exactly when the line is a cover field in strict markdown-image
syntax whose trimmed URL `u` is non-empty. -/
def coverLineUrl (trimmed : Str) : Option Str :=
  match parseField2NE trimmed fCover1 fCover2 with
  | some raw =>
    (match mdImageUrl raw with
     | some u => if jsTrim u = [] then none else some (jsTrim u)
     | none => none)
  | none => none

/-- A `封面`/`Cover` line that does not set a cover keeps an already-set
cover intact. -/
theorem coverStep_preserves (t : SubItem) (ln : Str) (t2 : SubItem) (c : Str)
    (hc : t.cover = some c) (h : coverLineUrl ln = none)
    (heq : coverStep ln t = some t2) : t2.cover = some c := by
  unfold coverStep at heq
  unfold coverLineUrl at h
  cases hp : parseField2NE ln fCover1 fCover2 with
  | none => simp [hp] at heq
  | some raw =>
    simp only [hp] at heq h
    cases hm : mdImageUrl raw with
    | none =>
      simp only [hm] at heq
      simp only [hc, Option.isSome_some, if_true, Option.some.injEq] at heq
      rw [← heq]
      exact hc
    | some u0 =>
      simp only [hm] at heq h
      by_cases hz : jsTrim u0 = []
      · rw [if_pos hz] at heq
        simp only [hc, Option.isSome_some, if_true, Option.some.injEq] at heq
        rw [← heq]
        exact hc
      · rw [if_neg hz] at h
        cases h

/-- The ISBN rule never fires on an item whose cover is already set. -/
theorem isbnStep_none (t : SubItem) (ln : Str) (c : Str) (hc : t.cover = some c) :
    isbnStep ln t = none := by
  unfold isbnStep
  cases hq : parseFieldNE ln fISBN with
  | none => rfl
  | some v => simp [hc]

/-- The Steam rule never fires on an item whose cover is already set. -/
theorem steamStep_none (t : SubItem) (ln : Str) (c : Str) (hc : t.cover = some c) :
    steamStep ln t = none := by
  unfold steamStep
  cases hq : parseField2NE ln fSteam1 fSteam2 with
  | none => rfl
  | some v => simp [hc]

/-- A valid cover line sets the target cover to its URL, overwriting any
previous value. -/
theorem subLineStep_cover_fires (t : SubItem) (ln u : Str)
    (h : coverLineUrl ln = some u) : (subLineStep t ln).cover = some u := by
  unfold coverLineUrl at h
  cases hp : parseField2NE ln fCover1 fCover2 with
  | none => simp [hp] at h
  | some raw =>
    simp only [hp] at h
    cases hm : mdImageUrl raw with
    | none => simp [hm] at h
    | some u0 =>
      simp only [hm] at h
      by_cases hz : jsTrim u0 = []
      · rw [if_pos hz] at h; cases h
      · rw [if_neg hz] at h
        simp only [Option.some.injEq] at h
        have hcov : coverStep ln t = some { t with cover := some (jsTrim u0) } := by
          unfold coverStep
          simp only [hp, hm]
          rw [if_neg hz]
          simp
        rcases parseField2NE_starts ln _ _ _ hp with hs | hs
        · have a1 : parseFieldNE ln fOrder1 = none :=
            parseFieldNE_none_of_starts ln _ _ _ _ _ _ rfl rfl (by decide) hs
          have a2 : parseFieldNE ln fOrder2 = none :=
            parseFieldNE_none_of_starts ln _ _ _ _ _ _ rfl rfl (by decide) hs
          have o0 : parseField2NE ln fOrder1 fOrder2 = none := by
            simp [parseField2NE, a1, a2]
          have b1 : parseFieldNE ln fDesc = none :=
            parseFieldNE_none_of_starts ln _ _ _ _ _ _ rfl rfl (by decide) hs
          have b2 : parseFieldNE ln fTech = none :=
            parseFieldNE_none_of_starts ln _ _ _ _ _ _ rfl rfl (by decide) hs
          have b3 : parseFieldNE ln fStatus = none :=
            parseFieldNE_none_of_starts ln _ _ _ _ _ _ rfl rfl (by decide) hs
          have b4l : parseFieldNE ln fGameType = none :=
            parseFieldNE_none_of_starts ln _ _ _ _ _ _ rfl rfl (by decide) hs
          have b4r : parseFieldNE ln fTags = none :=
            parseFieldNE_none_of_starts ln _ _ _ _ _ _ rfl rfl (by decide) hs
          have b4 : parseField2NE ln fGameType fTags = none := by
            simp [parseField2NE, b4l, b4r]
          have b5l : parseFieldNE ln fDev1 = none :=
            parseFieldNE_none_of_starts ln _ _ _ _ _ _ rfl rfl (by decide) hs
          have b5r : parseFieldNE ln fDev2 = none :=
            parseFieldNE_none_of_starts ln _ _ _ _ _ _ rfl rfl (by decide) hs
          have b5 : parseField2NE ln fDev1 fDev2 = none := by
            simp [parseField2NE, b5l, b5r]
          have b6l : parseFieldNE ln fPlatform1 = none :=
            parseFieldNE_none_of_starts ln _ _ _ _ _ _ rfl rfl (by decide) hs
          have b6r : parseFieldNE ln fPlatform2 = none :=
            parseFieldNE_none_of_starts ln _ _ _ _ _ _ rfl rfl (by decide) hs
          have b6 : parseField2NE ln fPlatform1 fPlatform2 = none := by
            simp [parseField2NE, b6l, b6r]
          have b7l : parseFieldNE ln fRelDate1 = none :=
            parseFieldNE_none_of_starts ln _ _ _ _ _ _ rfl rfl (by decide) hs
          have b7r : parseFieldNE ln fRelDate2 = none :=
            parseFieldNE_none_of_starts ln _ _ _ _ _ _ rfl rfl (by decide) hs
          have b7 : parseField2NE ln fRelDate1 fRelDate2 = none := by
            simp [parseField2NE, b7l, b7r]
          have b8 : parseFieldNE ln fReview = none :=
            parseFieldNE_none_of_starts ln _ _ _ _ _ _ rfl rfl (by decide) hs
          have b9 : parseFieldNE ln fAuthor = none :=
            parseFieldNE_none_of_starts ln _ _ _ _ _ _ rfl rfl (by decide) hs
          have b10l : parseFieldNE ln fPubYear1 = none :=
            parseFieldNE_none_of_starts ln _ _ _ _ _ _ rfl rfl (by decide) hs
          have b10r : parseFieldNE ln fPubYear2 = none :=
            parseFieldNE_none_of_starts ln _ _ _ _ _ _ rfl rfl (by decide) hs
          have b10 : parseField2NE ln fPubYear1 fPubYear2 = none := by
            simp [parseField2NE, b10l, b10r]
          have b11 : parseFieldNE ln fBookType = none :=
            parseFieldNE_none_of_starts ln _ _ _ _ _ _ rfl rfl (by decide) hs
          have b12 : parseFieldNE ln fPhotoLoc = none :=
            parseFieldNE_none_of_starts ln _ _ _ _ _ _ rfl rfl (by decide) hs
          have b13 : parseFieldNE ln fPhotoDate = none :=
            parseFieldNE_none_of_starts ln _ _ _ _ _ _ rfl rfl (by decide) hs
          simp only [subLineStep, restFields, o0, b1, b2, b3, b4, b5, b6, b7, b8, b9, b10, b11, b12, b13, hcov,
            Option.getD_some, h]
        · have a1 : parseFieldNE ln fOrder1 = none :=
            parseFieldNE_none_of_starts ln _ _ _ _ _ _ rfl rfl (by decide) hs
          have a2 : parseFieldNE ln fOrder2 = none :=
            parseFieldNE_none_of_starts ln _ _ _ _ _ _ rfl rfl (by decide) hs
          have o0 : parseField2NE ln fOrder1 fOrder2 = none := by
            simp [parseField2NE, a1, a2]
          have b1 : parseFieldNE ln fDesc = none :=
            parseFieldNE_none_of_starts ln _ _ _ _ _ _ rfl rfl (by decide) hs
          have b2 : parseFieldNE ln fTech = none :=
            parseFieldNE_none_of_starts ln _ _ _ _ _ _ rfl rfl (by decide) hs
          have b3 : parseFieldNE ln fStatus = none :=
            parseFieldNE_none_of_starts ln _ _ _ _ _ _ rfl rfl (by decide) hs
          have b4l : parseFieldNE ln fGameType = none :=
            parseFieldNE_none_of_starts ln _ _ _ _ _ _ rfl rfl (by decide) hs
          have b4r : parseFieldNE ln fTags = none :=
            parseFieldNE_none_of_starts ln _ _ _ _ _ _ rfl rfl (by decide) hs
          have b4 : parseField2NE ln fGameType fTags = none := by
            simp [parseField2NE, b4l, b4r]
          have b5l : parseFieldNE ln fDev1 = none :=
            parseFieldNE_none_of_starts ln _ _ _ _ _ _ rfl rfl (by decide) hs
          have b5r : parseFieldNE ln fDev2 = none :=
            parseFieldNE_none_of_starts ln _ _ _ _ _ _ rfl rfl (by decide) hs
          have b5 : parseField2NE ln fDev1 fDev2 = none := by
            simp [parseField2NE, b5l, b5r]
          have b6l : parseFieldNE ln fPlatform1 = none :=
            parseFieldNE_none_of_starts ln _ _ _ _ _ _ rfl rfl (by decide) hs
          have b6r : parseFieldNE ln fPlatform2 = none :=
            parseFieldNE_none_of_starts ln _ _ _ _ _ _ rfl rfl (by decide) hs
          have b6 : parseField2NE ln fPlatform1 fPlatform2 = none := by
            simp [parseField2NE, b6l, b6r]
          have b7l : parseFieldNE ln fRelDate1 = none :=
            parseFieldNE_none_of_starts ln _ _ _ _ _ _ rfl rfl (by decide) hs
          have b7r : parseFieldNE ln fRelDate2 = none :=
            parseFieldNE_none_of_starts ln _ _ _ _ _ _ rfl rfl (by decide) hs
          have b7 : parseField2NE ln fRelDate1 fRelDate2 = none := by
            simp [parseField2NE, b7l, b7r]
          have b8 : parseFieldNE ln fReview = none :=
            parseFieldNE_none_of_starts ln _ _ _ _ _ _ rfl rfl (by decide) hs
          have b9 : parseFieldNE ln fAuthor = none :=
            parseFieldNE_none_of_starts ln _ _ _ _ _ _ rfl rfl (by decide) hs
          have b10l : parseFieldNE ln fPubYear1 = none :=
            parseFieldNE_none_of_starts ln _ _ _ _ _ _ rfl rfl (by decide) hs
          have b10r : parseFieldNE ln fPubYear2 = none :=
            parseFieldNE_none_of_starts ln _ _ _ _ _ _ rfl rfl (by decide) hs
          have b10 : parseField2NE ln fPubYear1 fPubYear2 = none := by
            simp [parseField2NE, b10l, b10r]
          have b11 : parseFieldNE ln fBookType = none :=
            parseFieldNE_none_of_starts ln _ _ _ _ _ _ rfl rfl (by decide) hs
          have b12 : parseFieldNE ln fPhotoLoc = none :=
            parseFieldNE_none_of_starts ln _ _ _ _ _ _ rfl rfl (by decide) hs
          have b13 : parseFieldNE ln fPhotoDate = none :=
            parseFieldNE_none_of_starts ln _ _ _ _ _ _ rfl rfl (by decide) hs
          simp only [subLineStep, restFields, o0, b1, b2, b3, b4, b5, b6, b7, b8, b9, b10, b11, b12, b13, hcov,
            Option.getD_some, h]

/-- A line that is not a valid cover line never clears or changes an
already-set cover (in particular the ISBN and Steam rules never overwrite
it). -/
theorem subLineStep_cover_preserved (t : SubItem) (ln c : Str)
    (hc : t.cover = some c) (h : coverLineUrl ln = none) :
    (subLineStep t ln).cover = some c := by
  unfold subLineStep
  cases ho : parseField2NE ln fOrder1 fOrder2 with
  | some v => simp [hc]
  | none =>
    unfold restFields
    cases hf1 : parseFieldNE ln fDesc with
    | some v => simp [hc]
    | none =>
      cases hf2 : parseFieldNE ln fTech with
      | some v => simp [hc]
      | none =>
        cases hf3 : parseFieldNE ln fStatus with
        | some v => simp [hc]
        | none =>
          cases hf4 : parseField2NE ln fGameType fTags with
          | some v => simp [hc]
          | none =>
            cases hf5 : parseField2NE ln fDev1 fDev2 with
            | some v => simp [hc]
            | none =>
              cases hf6 : parseField2NE ln fPlatform1 fPlatform2 with
              | some v => simp [hc]
              | none =>
                cases hf7 : parseField2NE ln fRelDate1 fRelDate2 with
                | some v => simp [hc]
                | none =>
                  cases hf8 : parseFieldNE ln fReview with
                  | some v => simp [hc]
                  | none =>
                    cases hf9 : parseFieldNE ln fAuthor with
                    | some v => simp [hc]
                    | none =>
                      cases hf10 : parseField2NE ln fPubYear1 fPubYear2 with
                      | some v => simp [hc]
                      | none =>
                        cases hf11 : parseFieldNE ln fBookType with
                        | some v => simp [hc]
                        | none =>
                          cases hf12 : parseFieldNE ln fPhotoLoc with
                          | some v => simp [hc]
                          | none =>
                            cases hf13 : parseFieldNE ln fPhotoDate with
                            | some v => simp [hc]
                            | none =>
                              cases hcov : coverStep ln t with
                              | some t2 =>
                                have ht2 := coverStep_preserves t ln t2 c hc h hcov
                                simp [ht2]
                              | none =>
                                rw [isbnStep_none t ln c hc, steamStep_none t ln c hc]
                                cases hpu : photoUrlStep ln t with
                                | some t2 =>
                                  unfold photoUrlStep at hpu
                                  cases hq : parseFieldNE ln fPhotoUrl with
                                  | none => rw [hq] at hpu; cases hpu
                                  | some raw =>
                                    rw [hq] at hpu
                                    simp only [Option.some.injEq] at hpu
                                    subst hpu
                                    simp [hc]
                                | none =>
                                  cases hlk : linkStep ln t with
                                  | some t2 =>
                                    unfold linkStep at hlk
                                    by_cases hq : (parseField ln fLink).isSome = true
                                    · rw [if_pos hq] at hlk
                                      simp only [Option.some.injEq] at hlk
                                      subst hlk
                                      simp [hc]
                                    · rw [if_neg hq] at hlk; cases hlk
                                  | none => simp [hc]

/-- Folding non-cover lines preserves a set cover. -/
theorem foldl_cover_preserved (post : List Str) :
    ∀ (t : SubItem) (u : Str), t.cover = some u →
      (∀ l ∈ post, coverLineUrl l = none) →
      (List.foldl subLineStep t post).cover = some u := by
  induction post with
  | nil => intro t u hu _; exact hu
  | cons l ls ih =>
    intro t u hu hpost
    rw [List.foldl_cons]
    refine ih _ u ?_ ?_
    · exact subLineStep_cover_preserved t l u hu (hpost l (List.mem_cons_self _ _))
    · intro l2 hl2
      exact hpost l2 (List.mem_cons_of_mem _ hl2)

/-- C2: cover precedence.  First conjunct: if an item's field lines contain
a valid `封面`/`Cover` line with trimmed URL `u`, and no later valid cover
line, then after processing all the lines the target's cover is exactly
`u` — regardless of any `ISBN` / `SteamID` lines before or after it.
Second conjunct: once the cover is set, processing any line that is not a
valid cover line (in particular any ISBN or Steam line) leaves it
unchanged. -/
theorem c2_cover_precedence :
    (∀ (t : SubItem) (pre post : List Str) (ln u : Str),
      coverLineUrl ln = some u →
      (∀ l ∈ post, coverLineUrl l = none) →
      (List.foldl subLineStep t (pre ++ ln :: post)).cover = some u) ∧
    (∀ (t : SubItem) (ln c : Str), t.cover = some c → coverLineUrl ln = none →
      (subLineStep t ln).cover = some c) := by
  constructor
  · intro t pre post ln u hln hpost
    rw [List.foldl_append, List.foldl_cons]
    exact foldl_cover_preserved post _ u
      (subLineStep_cover_fires (List.foldl subLineStep t pre) ln u hln) hpost
  · intro t ln c hc h
    exact subLineStep_cover_preserved t ln c hc h

/-- Witness for C2 at concrete lines: an ISBN line before and a Steam line
after the explicit cover line do not affect the final cover. -/
theorem c2_cover_precedence_witness :
    coverLineUrl ("封面：![c](https://e.com/x.png)".toList) = some ("https://e.com/x.png".toList) ∧
    (∀ l ∈ ["SteamID：42".toList], coverLineUrl l = none) ∧
    (List.foldl subLineStep ({ title := ['T'] } : SubItem)
      (["ISBN：9787".toList] ++ "封面：![c](https://e.com/x.png)".toList ::
        ["SteamID：42".toList])).cover = some ("https://e.com/x.png".toList) :=
  ⟨by decide, by decide,
   c2_cover_precedence.1 { title := ['T'] } ["ISBN：9787".toList] ["SteamID：42".toList]
     ("封面：![c](https://e.com/x.png)".toList) ("https://e.com/x.png".toList)
     (by decide) (by decide)⟩


/-! ## Claims C7, C8 and C10: the data service -/

theorem lookupA_insertA (m : List (Str × α)) (k : Str) (v : α) :
    lookupA (insertA m k v) k = some v := by
  induction m with
  | nil => simp [insertA, lookupA]
  | cons p rest ih =>
    obtain ⟨k', v'⟩ := p
    simp only [insertA]
    by_cases h : k' = k
    · rw [if_pos h]
      simp [lookupA]
    · rw [if_neg h]
      simp only [lookupA, if_neg h]
      exact ih

/-- C7: when the path is present, the category is neither cached nor
pending, and the fetch fails (any non-2xx status, or a thrown error —
network failure, a failing body read, or a parse exception), then
`loadCategoryContent` resolves to `[]`, the empty list is cached under the
category's id, and `isCategoryLoaded` subsequently reports `true`. -/
theorem c7_failure_absorption (st : DSState) (cat : CategoryMeta) (fresh : Nat)
    (outcome : FetchOutcome) (p : Str)
    (hpath : cat.path = some p) (hp : p ≠ [])
    (hcache : lookupA st.contentCache cat.id = none)
    (hpend : lookupA st.pendingRequests cat.id = none)
    (hfail : ∀ status body, outcome = FetchOutcome.response status body →
      respOk status = false) :
    (loadCategoryContentRun st cat fresh outcome).2 = [] ∧
    lookupA (loadCategoryContentRun st cat fresh outcome).1.contentCache cat.id = some [] ∧
    isCategoryLoaded (loadCategoryContentRun st cat fresh outcome).1 cat.id = true := by
  have hstart : loadCategoryContentStart st cat fresh =
      ({ st with pendingRequests := insertA st.pendingRequests cat.id fresh },
       LoadAction.fetchStarted fresh) := by
    unfold loadCategoryContentStart
    simp only [hpath, hcache, hpend]
    rw [if_neg hp]
  have hrun : loadCategoryContentRun st cat fresh outcome =
      (let res := fetchAndParseCategoryContent
        { st with pendingRequests := insertA st.pendingRequests cat.id fresh } cat.id outcome
       ({ res.1 with pendingRequests := eraseA res.1.pendingRequests cat.id }, res.2)) := by
    unfold loadCategoryContentRun
    simp only [hstart]
  cases outcome with
  | response status body =>
    have hok := hfail status body rfl
    rw [hrun]
    simp only [fetchAndParseCategoryContent, hok, Bool.false_eq_true, if_false]
    refine ⟨by trivial, ?_, ?_⟩
    · exact lookupA_insertA _ _ _
    · unfold isCategoryLoaded
      rw [lookupA_insertA]
      rfl
  | thrown =>
    rw [hrun]
    simp only [fetchAndParseCategoryContent]
    refine ⟨by trivial, ?_, ?_⟩
    · exact lookupA_insertA _ _ _
    · unfold isCategoryLoaded
      rw [lookupA_insertA]
      rfl

/-- The concrete category of the C7 and C8 witnesses. -/
def c7Cat : CategoryMeta :=
  { title := ['g'], id := ['g'], type := [], path := some ['m'] }

/-- Witness for C7 at a concrete state: a 404 response on a fresh service
state. -/
theorem c7_failure_absorption_witness :
    (loadCategoryContentRun {} c7Cat 0 (FetchOutcome.response 404 [])).2 = [] ∧
    lookupA (loadCategoryContentRun {} c7Cat 0
      (FetchOutcome.response 404 [])).1.contentCache c7Cat.id = some [] ∧
    isCategoryLoaded (loadCategoryContentRun {} c7Cat 0
      (FetchOutcome.response 404 [])).1 c7Cat.id = true :=
  c7_failure_absorption {} c7Cat 0 (FetchOutcome.response 404 []) ['m'] rfl (by decide)
    rfl rfl (fun s b h => by cases h; decide)

/-- C8: a second `loadCategoryContent` call for a category whose first
call's fetch is still pending (and not yet cached) returns the very same
pending promise, changes no state, and in particular starts no second
fetch. -/
theorem c8_request_dedup (st : DSState) (cat : CategoryMeta) (fresh pr : Nat) (p : Str)
    (hpath : cat.path = some p) (hp : p ≠ [])
    (hcache : lookupA st.contentCache cat.id = none)
    (hpend : lookupA st.pendingRequests cat.id = some pr) :
    loadCategoryContentStart st cat fresh = (st, LoadAction.joined pr) := by
  unfold loadCategoryContentStart
  simp only [hpath, hcache, hpend]
  rw [if_neg hp]

/-- The concrete state of the C8 witness: promise `7` pending for id `g`. -/
def c8St : DSState :=
  { contentCache := [], pendingRequests := [(['g'], 7)] }

/-- Witness for C8 at a concrete state. -/
theorem c8_request_dedup_witness :
    loadCategoryContentStart c8St c7Cat 1 = (c8St, LoadAction.joined 7) :=
  c8_request_dedup c8St c7Cat 1 7 ['m'] rfl (by decide) rfl rfl

/-- C10: a call for a category whose path is absent or empty returns `[]`
without fetching and without touching the cache or the pending-request map
(the state is returned unchanged, so `isCategoryLoaded` is unchanged), and
any repetition of the call behaves identically. -/
theorem c10_no_path_no_effect (st : DSState) (cat : CategoryMeta) (fresh : Nat)
    (outcome : FetchOutcome) (hpath : cat.path = none ∨ cat.path = some []) :
    loadCategoryContentStart st cat fresh = (st, LoadAction.noPath) ∧
    loadCategoryContentRun st cat fresh outcome = (st, []) ∧
    loadCategoryContentRun (loadCategoryContentRun st cat fresh outcome).1 cat fresh
      outcome = (st, []) := by
  have hstart : loadCategoryContentStart st cat fresh = (st, LoadAction.noPath) := by
    unfold loadCategoryContentStart
    rcases hpath with h | h
    · simp only [h]
    · simp [h]
  have hrun : loadCategoryContentRun st cat fresh outcome = (st, []) := by
    unfold loadCategoryContentRun
    simp only [hstart]
  refine ⟨hstart, hrun, ?_⟩
  rw [hrun]
  exact hrun

/-- Witness for C10 at a concrete category with no path. -/
theorem c10_no_path_no_effect_witness :
    loadCategoryContentStart c8St { title := ['g'], id := ['g'], type := [] } 0 =
      (c8St, LoadAction.noPath) ∧
    loadCategoryContentRun c8St { title := ['g'], id := ['g'], type := [] } 0
      FetchOutcome.thrown = (c8St, []) ∧
    loadCategoryContentRun (loadCategoryContentRun c8St
      { title := ['g'], id := ['g'], type := [] } 0 FetchOutcome.thrown).1
      { title := ['g'], id := ['g'], type := [] } 0 FetchOutcome.thrown = (c8St, []) :=
  c10_no_path_no_effect c8St { title := ['g'], id := ['g'], type := [] } 0
    FetchOutcome.thrown (Or.inl rfl)

end CarrotBlog
